import Mathlib

/-!
alert_bot: date/time parsing, message splitting, reminder store and scheduler tick.

A shallow embedding of `internal/reminder/reminder.go`, `internal/bot/state.go` and the
cron tick / message loop of `internal/bot/bot.go`.

Go strings are modelled as lists of characters (the texts are valid UTF-8, the regular
expressions work on runes).  A time value is an instant, given by its reading in UTC; the
configured location is a list of offset changes, and `time.Date`, the readings `Year()`,
`Month()`, ... and `Add` go through it as in package `time`.
-/

namespace AlertBot

/-! ## Regular expressions (Go `regexp`, leftmost-first semantics)

Every expression of the program is a concatenation of repeated character classes, capture
group brackets and the anchors `^` and `$`.  -/

/-- One element of a regular expression. `rep cls lo hi greedy` is the class `cls` repeated
between `lo` and `hi` times (`hi = none`: unbounded), preferring more repetitions when `greedy`
and fewer otherwise. -/
inductive Item where
  | rep (cls : Char → Bool) (lo : Nat) (hi : Option Nat) (greedy : Bool)
  | gopen
  | gclose
  | bol
  | eol

/-- Trace of a match: the consumed characters with the capture brackets in between. -/
inductive Tok where
  | chr (c : Char)
  | opn
  | cls
  deriving DecidableEq, Repr

/-- Number of leading characters of `s` in the class `p`, at most `hi` of them. -/
def runLen (p : Char → Bool) : Option Nat → List Char → Nat
  | some 0, _ => 0
  | _, [] => 0
  | some (h + 1), c :: s => if p c then runLen p (some h) s + 1 else 0
  | none, c :: s => if p c then runLen p none s + 1 else 0

/-- The repetition counts to try, in order of preference. -/
def counts (lo n : Nat) (greedy : Bool) : List Nat :=
  let up := (List.range (n + 1 - lo)).map (fun i => lo + i)
  if greedy then up.reverse else up

/-- Backtracking match of the items at the head of `s`; `b` tells whether `s` starts at the
beginning of the text.  The first match in preference order is returned. -/
def matchSeq : List Item → Bool → List Char → Option (List Tok)
  | [], _, _ => some []
  | Item.gopen :: r, b, s => (matchSeq r b s).map (fun t => Tok.opn :: t)
  | Item.gclose :: r, b, s => (matchSeq r b s).map (fun t => Tok.cls :: t)
  | Item.bol :: r, b, s => if b then matchSeq r b s else none
  | Item.eol :: r, b, s => if s.isEmpty then matchSeq r b s else none
  | Item.rep p lo hi g :: r, b, s =>
    (counts lo (runLen p hi s) g).findSome? (fun k =>
      (matchSeq r (b && k == 0) (s.drop k)).map (fun t => (s.take k).map Tok.chr ++ t))

/-- The characters of a trace: the matched text. -/
def Tok.chars : List Tok → List Char
  | [] => []
  | Tok.chr c :: t => c :: Tok.chars t
  | _ :: t => Tok.chars t

/-- The text of the capture group that opens at the head of the trace. -/
def Tok.upToClose : List Tok → List Char
  | [] => []
  | Tok.cls :: _ => []
  | Tok.chr c :: t => c :: Tok.upToClose t
  | Tok.opn :: t => Tok.upToClose t

/-- The texts of the capture groups of a trace, in order. -/
def Tok.groups : List Tok → List (List Char)
  | [] => []
  | Tok.opn :: t => Tok.upToClose t :: Tok.groups t
  | _ :: t => Tok.groups t

/-- Leftmost match: the first start position at which `matchSeq` succeeds. The result is the
slice of `FindStringSubmatch` (whole match, then the groups) with the text before the match. -/
def findFrom (re : List Item) : Bool → List Char → List Char → Option (List Char × List (List Char))
  | b, pre, [] => (matchSeq re b []).map (fun t => (pre, Tok.chars t :: Tok.groups t))
  | b, pre, c :: s =>
    match matchSeq re b (c :: s) with
    | some t => some (pre, Tok.chars t :: Tok.groups t)
    | none => findFrom re false (pre ++ [c]) s

/-- Model of `(*Regexp).FindStringSubmatch`: `none` stands for the nil slice. -/
def FindStringSubmatch (re : List Item) (text : List Char) : Option (List (List Char)) :=
  (findFrom re true [] text).map Prod.snd

/-! ### Character classes -/

/-- Class `\d`. -/
def cDigit (c : Char) : Bool := decide ('0' ≤ c) && decide (c ≤ '9')

/-- Class `\s`: `[\t\n\f\r ]`. -/
def cSpace (c : Char) : Bool :=
  c == '\t' || c == '\n' || c == '\x0c' || c == '\r' || c == ' '

/-- Class `.`: any character but the line feed. -/
def cDot (c : Char) : Bool := c != '\n'

/-- Class `[:\.]`. -/
def cSep (c : Char) : Bool := c == ':' || c == '.'

/-- A literal character. -/
def cLit (x : Char) (c : Char) : Bool := c == x

/-- A literal character under `(?i)`: the characters of its simple case-folding orbit. -/
def cFold (orbit : List Char) (c : Char) : Bool := orbit.contains c

/-- Exactly one character of the class. -/
def one (p : Char → Bool) : Item := Item.rep p 1 (some 1) true

/-- Exactly `n` characters of the class (`x{n}`). -/
def exactly (p : Char → Bool) (n : Nat) : Item := Item.rep p n (some n) true

/-- One or more, greedy (`x+`). -/
def plus (p : Char → Bool) : Item := Item.rep p 1 none true

/-- The explicit-date expression of `parseDateTime`:
`(\d{2}\.\d{2}\.\d{4})\s+в\s+(\d{2})[:\.](\d{2})`. -/
def reFullDate : List Item :=
  [Item.gopen, exactly cDigit 2, one (cLit '.'), exactly cDigit 2, one (cLit '.'),
   exactly cDigit 4, Item.gclose, plus cSpace, one (cLit 'в'), plus cSpace,
   Item.gopen, exactly cDigit 2, Item.gclose, one cSep, Item.gopen, exactly cDigit 2,
   Item.gclose]

/-- Field `dateRegex` of the service: `(\d{2}\.\d{2})\s+(\d{2}:\d{2})`. -/
def dateRegex : List Item :=
  [Item.gopen, exactly cDigit 2, one (cLit '.'), exactly cDigit 2, Item.gclose, plus cSpace,
   Item.gopen, exactly cDigit 2, one (cLit ':'), exactly cDigit 2, Item.gclose]

/-- Field `tomorrowRegex` of the service: `(?i)завтра\s+в\s+(\d{1,2})`. -/
def tomorrowRegex : List Item :=
  [one (cFold ['з', 'З']), one (cFold ['а', 'А']), one (cFold ['в', 'В', '\u1c80']),
   one (cFold ['т', 'Т', '\u1c84', '\u1c85']), one (cFold ['р', 'Р']), one (cFold ['а', 'А']),
   plus cSpace, one (cFold ['в', 'В', '\u1c80']), plus cSpace,
   Item.gopen, Item.rep cDigit 1 (some 2) true, Item.gclose]

/-- The expression `(?i)в\s+(\d{1,2})[:\.](\d{2})` of `parseDateTime`. -/
def reAtTimeFold : List Item :=
  [one (cFold ['в', 'В', '\u1c80']), plus cSpace, Item.gopen, Item.rep cDigit 1 (some 2) true,
   Item.gclose, one cSep, Item.gopen, exactly cDigit 2, Item.gclose]

/-- The expression `(?i)в\s+(\d{1,2})` of `parseDateTime`. -/
def reAtHourFold : List Item :=
  [one (cFold ['в', 'В', '\u1c80']), plus cSpace, Item.gopen, Item.rep cDigit 1 (some 2) true,
   Item.gclose]

/-- The expression `^(\d{1,2})[:\.](\d{2})$` of `parseDateTime`. -/
def reBareTime : List Item :=
  [Item.bol, Item.gopen, Item.rep cDigit 1 (some 2) true, Item.gclose, one cSep,
   Item.gopen, exactly cDigit 2, Item.gclose, Item.eol]

/-- The expression `^(.+?)\s+(\d{2}\.\d{2}\.\d{4})\s+в\s+(\d{2})[:\.](\d{2})` of
`ParseMessage`. -/
def reActionFullDate : List Item :=
  [Item.bol, Item.gopen, Item.rep cDot 1 none false, Item.gclose, plus cSpace,
   Item.gopen, exactly cDigit 2, one (cLit '.'), exactly cDigit 2, one (cLit '.'),
   exactly cDigit 4, Item.gclose, plus cSpace, one (cLit 'в'), plus cSpace,
   Item.gopen, exactly cDigit 2, Item.gclose, one cSep, Item.gopen, exactly cDigit 2,
   Item.gclose]

/-- The expression `в\s+(\d{1,2})[:\.](\d{2})` of `ParseMessage`. -/
def reAtTime : List Item :=
  [one (cLit 'в'), plus cSpace, Item.gopen, Item.rep cDigit 1 (some 2) true, Item.gclose,
   one cSep, Item.gopen, exactly cDigit 2, Item.gclose]

/-- The expression `в\s+(\d{1,2})` of `ParseMessage`. -/
def reAtHour : List Item :=
  [one (cLit 'в'), plus cSpace, Item.gopen, Item.rep cDigit 1 (some 2) true, Item.gclose]

/-! ## Go strings and numbers -/

/-- Value of a decimal digit character. -/
def digitVal (c : Char) : Nat := c.toNat - 48

/-- The decimal digit character of `d < 10`. -/
def digitChar (d : Nat) : Char :=
  match d with
  | 0 => '0' | 1 => '1' | 2 => '2' | 3 => '3' | 4 => '4'
  | 5 => '5' | 6 => '6' | 7 => '7' | 8 => '8' | _ => '9'

/-- Value of a string of decimal digits read from the left, `acc` being the value so far;
`none` when a character is not a digit. -/
def atoiAux : List Char → Nat → Option Nat
  | [], acc => some acc
  | c :: s, acc => if cDigit c then atoiAux s (acc * 10 + digitVal c) else none

/-- Model of `strconv.Atoi` on unsigned decimal text (the program passes it captures of `\d`
groups only): `none` is the error result. -/
def Atoi (s : List Char) : Option Nat :=
  match s with
  | [] => none
  | _ => atoiAux s 0

/-- The decimal digits of `n` in front of `acc`; `fuel` bounds the number of digits. -/
def digitsAux : Nat → Nat → List Char → List Char
  | 0, _, acc => acc
  | fuel + 1, n, acc =>
    if n / 10 = 0 then digitChar (n % 10) :: acc
    else digitsAux fuel (n / 10) (digitChar (n % 10) :: acc)

/-- Decimal rendering of a natural number. -/
def natStr (n : Nat) : List Char := digitsAux (n + 1) n []

/-- Model of the verb `%d` of `fmt.Sprintf` on an integer. -/
def fmtD (i : Int) : List Char :=
  match i with
  | Int.ofNat n => natStr n
  | Int.negSucc n => '-' :: natStr (n + 1)

/-! ## Time (package `time`) -/

/-- An instant, given by its reading in UTC: civil date, clock, nanoseconds. (The zero value
`time.Time{}` is 0001-01-01 00:00:00 UTC.) -/
structure Time where
  year : Int
  month : Nat
  day : Nat
  hour : Nat
  minute : Nat
  second : Nat
  nsec : Nat
  deriving DecidableEq, Repr

/-- Leap year rule of the Gregorian calendar. -/
def isLeap (y : Int) : Bool := y % 4 == 0 && (y % 100 != 0 || y % 400 == 0)

/-- Number of days of month `m` in year `y`. -/
def daysIn (m : Nat) (y : Int) : Nat :=
  if m = 2 then (if isLeap y then 29 else 28)
  else if m = 4 ∨ m = 6 ∨ m = 9 ∨ m = 11 then 30 else 31

/-- A normalised reading: what every instant reads as, in UTC and in any location. -/
def Time.Valid (t : Time) : Prop :=
  1 ≤ t.month ∧ t.month ≤ 12 ∧ 1 ≤ t.day ∧ t.day ≤ daysIn t.month t.year ∧
  t.hour < 24 ∧ t.minute < 60 ∧ t.second < 60 ∧ t.nsec < 1000000000

instance (t : Time) : Decidable t.Valid := by
  unfold Time.Valid; infer_instance

/-- The calendar day after `(y, m, d)`. -/
def nextDay (ymd : Int × Nat × Nat) : Int × Nat × Nat :=
  let (y, m, d) := ymd
  if d < daysIn m y then (y, m, d + 1)
  else if m < 12 then (y, m + 1, 1)
  else (y + 1, 1, 1)

/-- The calendar day `n` days after `(y, m, d)`. -/
def addDays : Nat → Int × Nat × Nat → Int × Nat × Nat
  | 0, ymd => ymd
  | n + 1, ymd => addDays n (nextDay ymd)

/-- The calendar day before `(y, m, d)`. -/
def prevDay (ymd : Int × Nat × Nat) : Int × Nat × Nat :=
  let (y, m, d) := ymd
  if 1 < d then (y, m, d - 1)
  else if 1 < m then (y, m - 1, daysIn (m - 1) y)
  else (y - 1, 12, 31)

/-- The calendar day `n` days before `(y, m, d)`. -/
def subDays : Nat → Int × Nat × Nat → Int × Nat × Nat
  | 0, ymd => ymd
  | n + 1, ymd => prevDay (subDays n ymd)

/-- The calendar day `k` days after (before, for a negative `k`) `(y, m, d)`. -/
def shiftDays (k : Int) (ymd : Int × Nat × Nat) : Int × Nat × Nat :=
  match k with
  | Int.ofNat n => addDays n ymd
  | Int.negSucc n => subDays (n + 1) ymd

/-- The first half of `time.Date`: the arguments read as a civil time, values outside their
ranges carried over, as in Go ("October 32 converts to November 1"). The arguments are not
negative and the day is at least 1 (the only ones the program passes). As an instant, the
result is that civil time in UTC (the `unix` of the source of `time.Date`). -/
def civil (year : Int) (month day hour min sec nsec : Nat) : Time :=
  let sec1 := sec + nsec / 1000000000
  let min1 := min + sec1 / 60
  let hour1 := hour + min1 / 60
  let day1 := day + hour1 / 24
  let ymd := addDays (day1 - 1) (year + ((month - 1) / 12 : Nat), (month - 1) % 12 + 1, 1)
  { year := ymd.1, month := ymd.2.1, day := ymd.2.2, hour := hour1 % 24, minute := min1 % 60,
    second := sec1 % 60, nsec := nsec % 1000000000 }

/-- Model of `t.Before(u)`: the order of instants, read off their UTC readings. -/
def Time.Before (t u : Time) : Bool :=
  decide (t.year < u.year) || (t.year == u.year && (decide (t.month < u.month) ||
  (t.month == u.month && (decide (t.day < u.day) || (t.day == u.day &&
  (decide (t.hour < u.hour) || (t.hour == u.hour && (decide (t.minute < u.minute) ||
  (t.minute == u.minute && (decide (t.second < u.second) ||
  (t.second == u.second && decide (t.nsec < u.nsec))))))))))))

/-- Seconds since midnight of the clock of a reading. -/
def Time.secOfDay (t : Time) : Nat := t.hour * 3600 + t.minute * 60 + t.second

/-- Model of `t.Add(d)` for a duration of `k` whole seconds: the instant `k` seconds later
(earlier, for a negative `k`). `t.Add(24 * time.Hour)` is `t.AddSeconds 86400`. -/
def Time.AddSeconds (t : Time) (k : Int) : Time :=
  let total : Int := (t.secOfDay : Int) + k
  let ymd := shiftDays (total / 86400) (t.year, t.month, t.day)
  let sod := (total % 86400).toNat
  { year := ymd.1, month := ymd.2.1, day := ymd.2.2, hour := sod / 3600,
    minute := sod % 3600 / 60, second := sod % 60, nsec := t.nsec }

/-- Model of `time.Location`: the offset (seconds east of UTC) in force before the first
offset change, and the changes in order of time, each with its instant and the offset from
then on. A location with a fixed offset has no change; for a location whose changes go on
by a rule, the list holds those of the years looked at. -/
structure Location where
  first : Int
  tx : List (Time × Int)

/-- The period of the location that holds the instant `t`: its offset, its start and its end
(`none`: unbounded), `cur` and `start` being those of the period before the changes listed. -/
def lookupFrom (cur : Int) (start : Option Time) :
    List (Time × Int) → Time → Int × Option Time × Option Time
  | [], _ => (cur, start, none)
  | (w, o) :: rest, t =>
    if t.Before w then (cur, start, some w) else lookupFrom o (some w) rest t

/-- Model of `(*Location).lookup`: offset, start and end of the period that holds `t`. -/
def Location.lookup (l : Location) (t : Time) : Int × Option Time × Option Time :=
  lookupFrom l.first none l.tx t

/-- Model of `time.Date(year, month, day, hour, min, sec, nsec, loc)`: the civil time of the
arguments is looked up as if it were UTC; the offset found is subtracted, unless the instant
so obtained lies outside the period found, in which case the offset in force at that instant
is taken. A wall-clock time that an offset change skips is thereby moved. -/
def Date (year : Int) (month day hour min sec nsec : Nat) (loc : Location) : Time :=
  let unix := civil year month day hour min sec nsec
  let r := loc.lookup unix
  let offset := r.1
  if offset ≠ 0 then
    let utc := unix.AddSeconds (-offset)
    let beforeStart := match r.2.1 with
      | some start => utc.Before start
      | none => false
    let notBeforeEnd := match r.2.2 with
      | some e => !utc.Before e
      | none => false
    let offset1 := if beforeStart || notBeforeEnd then (loc.lookup utc).1 else offset
    unix.AddSeconds (-offset1)
  else unix

/-- The reading of the instant `t` in the location: what `t.Year()`, `t.Month()`, `t.Day()`,
`t.Hour()`, ... return for a time value set to `loc`. -/
def Time.wall (t : Time) (loc : Location) : Time := t.AddSeconds (loc.lookup t).1

/-- Model of `t.AddDate(1, 0, 0)`: `Date(year+1, month, day, hour, min, sec, nsec, loc)` of
the reading of `t`. -/
def Time.AddYear (t : Time) (loc : Location) : Time :=
  Date ((t.wall loc).year + 1) (t.wall loc).month (t.wall loc).day (t.wall loc).hour
    (t.wall loc).minute (t.wall loc).second (t.wall loc).nsec loc

/-- Model of `getnum` of package `time`: one or two digits, exactly two when `fixed`. -/
def getnum (s : List Char) (fixed : Bool) : Option (Nat × List Char) :=
  match s with
  | [] => none
  | c :: r =>
    if !cDigit c then none
    else match r with
      | d :: r1 =>
        if cDigit d then some (digitVal c * 10 + digitVal d, r1)
        else if fixed then none else some (digitVal c, r)
      | [] => if fixed then none else some (digitVal c, [])

/-- An element of a layout of `time.Parse`. -/
inductive Std where
  | zeroDay
  | zeroMonth
  | longYear
  | hour
  | zeroMinute
  | lit (c : Char)

/-- The fields read so far by `time.Parse`. -/
structure Fields where
  year : Nat := 0
  month : Nat := 1
  day : Nat := 1
  hour : Nat := 0
  min : Nat := 0

/-- One element of the layout against the head of the value; `none` is a parse error. -/
def parseStd (f : Fields) (value : List Char) : Std → Option (Fields × List Char)
  | Std.zeroDay => (getnum value true).map (fun r => ({ f with day := r.1 }, r.2))
  | Std.zeroMonth =>
    (getnum value true).bind (fun r =>
      if r.1 = 0 ∨ 12 < r.1 then none else some ({ f with month := r.1 }, r.2))
  | Std.longYear =>
    match value with
    | a :: b :: c :: d :: rest =>
      if cDigit a then (atoiAux [a, b, c, d] 0).map (fun y => ({ f with year := y }, rest))
      else none
    | _ => none
  | Std.hour =>
    (getnum value false).bind (fun r =>
      if 24 ≤ r.1 then none else some ({ f with hour := r.1 }, r.2))
  | Std.zeroMinute =>
    (getnum value true).bind (fun r =>
      if 60 ≤ r.1 then none else some ({ f with min := r.1 }, r.2))
  | Std.lit ' ' =>
    match value with
    | [] => some (f, [])
    | c :: _ => if c ≠ ' ' then none else some (f, value.dropWhile (fun x => x == ' '))
  | Std.lit x =>
    match value with
    | c :: rest => if c = x then some (f, rest) else none
    | [] => none

/-- The layout elements in turn, then the check for extra text. -/
def parseLayout : List Std → Fields → List Char → Option Fields
  | [], f, value => if value.isEmpty then some f else none
  | e :: layout, f, value =>
    match parseStd f value e with
    | some (f1, rest) => parseLayout layout f1 rest
    | none => none

/-- Model of `time.ParseInLocation(layout, value, loc)`: the fields are read, the day of the
month is validated, and the time is built by `Date`. -/
def ParseInLocation (layout : List Std) (value : List Char) (loc : Location) : Option Time :=
  match parseLayout layout {} value with
  | some f =>
    if f.day < 1 ∨ daysIn f.month f.year < f.day then none
    else some (Date f.year f.month f.day f.hour f.min 0 0 loc)
  | none => none

/-- Layout `"02.01.2006"`. -/
def layoutDate : List Std :=
  [Std.zeroDay, Std.lit '.', Std.zeroMonth, Std.lit '.', Std.longYear]

/-- Layout `"02.01.2006 15:04"`. -/
def layoutDateTime : List Std :=
  [Std.zeroDay, Std.lit '.', Std.zeroMonth, Std.lit '.', Std.longYear, Std.lit ' ',
   Std.hour, Std.lit ':', Std.zeroMinute]

/-! ## `reminder.Service.parseDateTime` -/

/-- Element `i` of a submatch slice. -/
def sub (ms : List (List Char)) (i : Nat) : List Char := ms.getD i []

/-- `hour, _ := strconv.Atoi(s)`: the error is dropped, the value is then 0. -/
def atoiOrZero (s : List Char) : Nat := (Atoi s).getD 0

/-- The block for `DD.MM.YYYY в HH:MM` / `DD.MM.YYYY в HH.MM`; `none`: fall through. -/
def tryFullDate (loc : Location) (text : List Char) : Option Time :=
  match FindStringSubmatch reFullDate text with
  | some ms =>
    let dateStr := sub ms 1
    let hour := atoiOrZero (sub ms 2)
    let minute := atoiOrZero (sub ms 3)
    match ParseInLocation layoutDate dateStr loc with
    | some dt =>
      some (Date (dt.wall loc).year (dt.wall loc).month (dt.wall loc).day hour minute 0 0 loc)
    | none => none
  | none => none

/-- The block for `DD.MM HH:MM`; `none`: fall through. -/
def tryDayMonth (loc : Location) (now : Time) (text : List Char) : Option Time :=
  match FindStringSubmatch dateRegex text with
  | some ms =>
    let dateStr := sub ms 1
    let timeStr := sub ms 2
    let fullDateStr := dateStr ++ ['.'] ++ fmtD (now.wall loc).year ++ [' '] ++ timeStr
    match ParseInLocation layoutDateTime fullDateStr loc with
    | some dt => some (if dt.Before now then dt.AddYear loc else dt)
    | none => none
  | none => none

/-- The block for `Завтра в X`. -/
def tryTomorrow (loc : Location) (today : Time) (text : List Char) : Option Time :=
  match FindStringSubmatch tomorrowRegex text with
  | some ms =>
    let hour := atoiOrZero (sub ms 1)
    let tomorrow := today.AddSeconds 86400
    some (Date (tomorrow.wall loc).year (tomorrow.wall loc).month (tomorrow.wall loc).day
      hour 0 0 0 loc)
  | none => none

/-- The blocks for `в HH:MM`, `в X` and bare `HH:MM`: today at that clock time, 24 hours later
when that is before now. `withMinute` tells whether the expression has a minute group. -/
def tryToday (re : List Item) (withMinute : Bool) (loc : Location) (now today : Time)
    (text : List Char) : Option Time :=
  match FindStringSubmatch re text with
  | some ms =>
    let hour := atoiOrZero (sub ms 1)
    let minute := if withMinute then atoiOrZero (sub ms 2) else 0
    let dt := Date (today.wall loc).year (today.wall loc).month (today.wall loc).day
      hour minute 0 0 loc
    some (if dt.Before now then dt.AddSeconds 86400 else dt)
  | none => none

/-- Model of `(*Service).parseDateTime`, with the location `loc` that `time.LoadLocation`
(or the fallback `time.Local`) gives and the instant `now` of `time.Now()` as arguments. The
blocks are tried in the order of the source; the first that returns wins. -/
def parseDateTime (loc : Location) (now : Time) (text : List Char) : Time × Bool :=
  let today := Date (now.wall loc).year (now.wall loc).month (now.wall loc).day 0 0 0 0 loc
  match tryFullDate loc text with
  | some dt => (dt, true)
  | none =>
  match tryDayMonth loc now text with
  | some dt => (dt, true)
  | none =>
  match tryTomorrow loc today text with
  | some dt => (dt, true)
  | none =>
  match tryToday reAtTimeFold true loc now today text with
  | some dt => (dt, true)
  | none =>
  match tryToday reAtHourFold false loc now today text with
  | some dt => (dt, true)
  | none =>
  match tryToday reBareTime true loc now today text with
  | some dt => (dt, true)
  | none => (civil 1 1 1 0 0 0 0, false)

/-! ## `reminder.Service.ParseMessage` -/

/-- Model of `unicode.IsSpace`: the characters `strings.TrimSpace` removes. -/
def isSpace (c : Char) : Bool :=
  c == '\t' || c == '\n' || c == '\x0b' || c == '\x0c' || c == '\r' || c == ' ' ||
  c == '\u0085' || c == '\u00a0' || c == '\u1680' ||
  (decide ('\u2000' ≤ c) && decide (c ≤ '\u200a')) ||
  c == '\u2028' || c == '\u2029' || c == '\u202f' || c == '\u205f' || c == '\u3000'

/-- Model of `strings.TrimSpace`: leading and trailing white space removed. -/
def TrimSpace (s : List Char) : List Char :=
  (s.dropWhile isSpace).rdropWhile isSpace

/-- Model of `strings.Split(s, "\n")`: the pieces between line feeds (never an empty slice). -/
def Split : List Char → List (List Char)
  | [] => [[]]
  | c :: s =>
    if c = '\n' then [] :: Split s
    else match Split s with
      | l :: ls => (c :: l) :: ls
      | [] => [[c]]

/-- Model of `strings.Replace(s, old, new, 1)`: the first occurrence of `old` replaced. -/
def Replace1 (s old new : List Char) : List Char :=
  if old.isPrefixOf s then new ++ s.drop old.length
  else match s with
    | [] => []
    | c :: r => c :: Replace1 r old new

/-- The loop that keeps the trimmed lines that are not empty. -/
def nonEmptyLinesOf (lines : List (List Char)) : List (List Char) :=
  lines.filterMap (fun line =>
    let trimmed := TrimSpace line
    if trimmed ≠ [] then some trimmed else none)

/-- Model of `(*Service).ParseMessage`: `(action, dateTimeStr, ok)`. -/
def ParseMessage (text0 : List Char) : List Char × List Char × Bool :=
  let text := TrimSpace text0
  match FindStringSubmatch reActionFullDate text with
  | some ms =>
    (TrimSpace (sub ms 1), sub ms 2 ++ (" в ".toList ++ (sub ms 3 ++ (':' :: sub ms 4))), true)
  | none =>
    let nonEmptyLines := nonEmptyLinesOf (Split text)
    if nonEmptyLines.length = 1 then
      let line := nonEmptyLines.getD 0 []
      match FindStringSubmatch reAtTime line with
      | some tm => (TrimSpace (Replace1 line (sub tm 0) []), sub tm 1 ++ (':' :: sub tm 2), true)
      | none =>
        match FindStringSubmatch reAtHour line with
        | some tm => (TrimSpace (Replace1 line (sub tm 0) []), "Завтра в ".toList ++ sub tm 1, true)
        | none => ([], [], false)
    else if 2 ≤ nonEmptyLines.length then
      (nonEmptyLines.getD (nonEmptyLines.length - 2) [],
       nonEmptyLines.getD (nonEmptyLines.length - 1) [], true)
    else ([], [], false)

/-! ## The reminder key and `reminder.Service.AddReminder` -/

/-- Model of `fmt.Sprintf("%d_%d", chatID, messageID)`. -/
def reminderKey (chatID messageID : Int) : List Char :=
  fmtD chatID ++ ('_' :: fmtD messageID)

/-- Go map with string keys, as an association list: lookup. -/
def mapGet {κ ν : Type} [DecidableEq κ] (m : List (κ × ν)) (k : κ) : Option ν :=
  match m with
  | [] => none
  | e :: r => if e.1 = k then some e.2 else mapGet r k

/-- Go `delete(m, k)`. -/
def mapDelete {κ ν : Type} [DecidableEq κ] (m : List (κ × ν)) (k : κ) : List (κ × ν) :=
  m.filter (fun e => decide (e.1 ≠ k))

/-- Go `m[k] = v`. -/
def mapSet {κ ν : Type} [DecidableEq κ] (m : List (κ × ν)) (k : κ) (v : ν) : List (κ × ν) :=
  (k, v) :: mapDelete m k

/-- Struct `reminder.Reminder`. -/
structure Reminder where
  Action : List Char
  DateTime : Time
  ChatID : Int
  MessageID : Int
  ThreadID : Int
  deriving DecidableEq, Repr

/-- Struct `reminder.Service`: the map `reminders` (the expressions are constants here). -/
structure Service where
  reminders : List (List Char × Reminder)
  deriving DecidableEq, Repr

/-- Model of `(*Service).AddReminder`, with the location and the instant of the clock as
arguments. -/
def Service.AddReminder (s : Service) (loc : Location) (now : Time)
    (action dateTimeStr : List Char) (chatID messageID threadID : Int) :
    Service × Time × Bool :=
  match parseDateTime loc now dateTimeStr with
  | (_, false) => (s, civil 1 1 1 0 0 0 0, false)
  | (dt, true) =>
    let id := reminderKey chatID messageID
    ({ reminders := mapSet s.reminders id
        { Action := action, DateTime := dt, ChatID := chatID, MessageID := messageID,
          ThreadID := threadID } }, dt, true)

/-! ## `bot.State` -/

/-- Struct `bot.ReminderState`. -/
structure ReminderState where
  Action : List Char
  DateTime : List Char
  ChatID : Int
  MessageID : Int
  ThreadID : Int
  deriving DecidableEq, Repr

/-- Struct `bot.State`: the two maps. -/
structure State where
  ReminderTopics : List (Int × Int)
  Reminders : List (List Char × ReminderState)
  deriving DecidableEq, Repr

/-- Model of `(*State).GetTopicID`. -/
def State.GetTopicID (s : State) (chatID : Int) : Option Int := mapGet s.ReminderTopics chatID

/-- Model of `(*State).SetTopicID`; `writeErr` is the outcome of `save` (the write of the
state file), returned as the error. -/
def State.SetTopicID (s : State) (chatID topicID : Int) (writeErr : Bool) : State × Bool :=
  ({ s with ReminderTopics := mapSet s.ReminderTopics chatID topicID }, writeErr)

/-- Model of `(*State).AddReminder`; the map is updated whatever `save` returns. -/
def State.AddReminder (s : State) (key : List Char) (reminder : ReminderState)
    (writeErr : Bool) : State × Bool :=
  ({ s with Reminders := mapSet s.Reminders key reminder }, writeErr)

/-- Model of `(*State).GetReminders`: a copy of the map. -/
def State.GetReminders (s : State) : List (List Char × ReminderState) := s.Reminders

/-- Model of `(*State).DeleteReminder`; the map is updated whatever `save` returns. -/
def State.DeleteReminder (s : State) (key : List Char) (writeErr : Bool) : State × Bool :=
  ({ s with Reminders := mapDelete s.Reminders key }, writeErr)

/-! ## Delivery (`bot.go`) -/

/-- Outcomes of the external calls of one `sendToReminderTopic`: the topic with the reserved
name found by `getForumTopicsByChat` (if the call and the decoding succeed and one is found),
the topic made by `createForumTopic` (`none`: any failure), whether the `sendMessage` post
returned no error, and whether the write of the state file fails. -/
structure Net where
  found : Option Int
  created : Option Int
  posted : Bool
  writeErr : Bool

/-- Model of `(*Bot).createOrGetReminderTopic`: the state and the topic id (`none`: error). -/
def createOrGetReminderTopic (st : State) (chatID : Int) (net : Net) : State × Option Int :=
  match st.GetTopicID chatID with
  | some topicID => (st, some topicID)
  | none =>
    match net.found with
    | some topicID => ((st.SetTopicID chatID topicID net.writeErr).1, some topicID)
    | none =>
      match net.created with
      | none => (st, none)
      | some topicID => ((st.SetTopicID chatID topicID net.writeErr).1, some topicID)

/-- Model of `(*Bot).sendToReminderTopic`: the state and whether the error is nil. -/
def sendToReminderTopic (st : State) (chatID : Int) (net : Net) : State × Bool :=
  match createOrGetReminderTopic st chatID net with
  | (st1, none) => (st1, false)
  | (st1, some _) => (st1, net.posted)

/-! ## The cron tick of `(*Bot).Start` -/

/-- Model of `t.Sub(u)` on instants in nanoseconds: the difference, saturated to the range of
`time.Duration` (int64). -/
def Sub (t u : Int) : Int :=
  if t - u > 9223372036854775807 then 9223372036854775807
  else if t - u < -9223372036854775808 then -9223372036854775808
  else t - u

/-- What the tick takes from outside: `time.Parse(time.RFC3339, s)` as the instant in
nanoseconds (`none`: error), the text of the notification (its minutes go through floating
point), and per reminder key the outcomes of the external calls of its delivery and of the
write of the state file when it is deleted. -/
structure Env where
  parseRFC3339 : List Char → Option Int
  render : Int → List Char → List Char
  net : List Char → Net
  deleteWriteErr : List Char → Bool

/-- One call of `sendToReminderTopic` by the tick: for which key, to which chat, with which
text, and whether it returned no error. -/
structure Sent where
  key : List Char
  chatID : Int
  text : List Char
  ok : Bool
  deriving DecidableEq, Repr

/-- The body of the loop `for key, r := range reminders` of the tick. -/
def tickStep (env : Env) (now reminderTime : Int) (acc : State × List Sent)
    (kr : List Char × ReminderState) : State × List Sent :=
  let key := kr.1
  let r := kr.2
  match env.parseRFC3339 r.DateTime with
  | none => acc
  | some dt =>
    let timeUntilEvent := Sub dt now
    if 0 < timeUntilEvent ∧ timeUntilEvent ≤ reminderTime then
      let text := env.render reminderTime r.Action
      let res := sendToReminderTopic acc.1 r.ChatID (env.net key)
      let log := acc.2 ++ [{ key := key, chatID := r.ChatID, text := text, ok := res.2 }]
      if res.2 then ((res.1.DeleteReminder key (env.deleteWriteErr key)).1, log)
      else (res.1, log)
    else if timeUntilEvent ≤ 0 then
      ((acc.1.DeleteReminder key (env.deleteWriteErr key)).1, acc.2)
    else acc

/-- The loop of the tick over a snapshot `reminders`, run on the state `st`: the state at the
end and the deliveries invoked, in order. -/
def tickOn (env : Env) (now reminderTime : Int) (reminders : List (List Char × ReminderState))
    (st : State) : State × List Sent :=
  reminders.foldl (tickStep env now reminderTime) (st, [])

/-- The cron tick: the snapshot is taken by `GetReminders` at the start. (Go ranges over the
snapshot in an unspecified order; the theorems hold for every order of it.) -/
def tick (env : Env) (now reminderTime : Int) (st : State) : State × List Sent :=
  tickOn env now reminderTime st.GetReminders st

/-! ## The message loop of `(*Bot).Start` -/

/-- What the loop reads of an update: text, chat, message id and the command, if it is one. -/
structure Message where
  Text : List Char
  ChatID : Int
  MessageID : Int
  Command : Option (List Char)

/-- The two stores of the bot. -/
structure Bot where
  reminder : Service
  state : State

/-- The body of the loop `for update := range updates` for an update with a message.
`formatRFC3339` stands for `dt.Format(time.RFC3339)`, `net` and `writeErr` for the outcomes
of the external calls of the reply and of the write of the state file. -/
def handleMessage (formatRFC3339 : Time → List Char) (loc : Location) (now : Time) (net : Net)
    (writeErr : Bool) (b : Bot) (msg : Message) : Bot :=
  if msg.Command = some "start".toList ∨ msg.Command = some "help".toList then
    { b with state := (sendToReminderTopic b.state msg.ChatID net).1 }
  else
    match ParseMessage msg.Text with
    | (_, _, false) => b
    | (action, dateTimeStr, true) =>
      match b.reminder.AddReminder loc now action dateTimeStr msg.ChatID msg.MessageID 0 with
      | (_, _, false) => b
      | (svc, dt, true) =>
        let key := reminderKey msg.ChatID msg.MessageID
        let reminder : ReminderState :=
          { Action := action, DateTime := formatRFC3339 dt, ChatID := msg.ChatID,
            MessageID := msg.MessageID, ThreadID := 0 }
        let st1 := (b.state.AddReminder key reminder writeErr).1
        { reminder := svc, state := (sendToReminderTopic st1 msg.ChatID net).1 }

/-! ## Renderings used to state the properties -/

/-- Two decimal digits of `n < 100`, zero-padded: the shape `DD`, `MM`, `HH`. -/
def two (n : Nat) : List Char := [digitChar (n / 10), digitChar (n % 10)]

/-- Four decimal digits of `n < 10000`, zero-padded: the shape `YYYY`. -/
def four (n : Nat) : List Char :=
  [digitChar (n / 1000), digitChar (n / 100 % 10), digitChar (n / 10 % 10), digitChar (n % 10)]

/-- The text `DD.MM` of a day and month. -/
def dayMonthText (d m : Nat) : List Char := two d ++ ('.' :: two m)

/-- The text `HH:MM` of a clock time. -/
def clockText (h mi : Nat) : List Char := two h ++ (':' :: two mi)

/-- An expression without the anchors `^` and `$`. -/
def noAnchor : List Item → Bool
  | [] => true
  | Item.bol :: _ => false
  | Item.eol :: _ => false
  | _ :: r => noAnchor r

/-- The lines of a text that are not blank: split at line feeds, lines of white space only
dropped. -/
def nonBlankLines (text : List Char) : List (List Char) :=
  (Split text).filter (fun l => !l.all isSpace)

/-- Order of calendar dates `(year, month, day)`. -/
def dateLt (a b : Int × Nat × Nat) : Prop :=
  a.1 < b.1 ∨ (a.1 = b.1 ∧ (a.2.1 < b.2.1 ∨ (a.2.1 = b.2.1 ∧ a.2.2 < b.2.2)))

/-- A date of the calendar: month 1..12, day 1..length of the month. -/
def DateOK (a : Int × Nat × Nat) : Prop :=
  1 ≤ a.2.1 ∧ a.2.1 ≤ 12 ∧ 1 ≤ a.2.2 ∧ a.2.2 ≤ daysIn a.2.1 a.1

/-- Decimal rendering of a natural number, from its list of base-10 digits: `0` for zero,
otherwise the digits from the most significant one, without leading zeros. -/
def decimalNat (n : Nat) : List Char :=
  if n = 0 then ['0'] else ((Nat.digits 10 n).reverse).map digitChar

/-- Decimal rendering of an integer: a minus sign for a negative one, then the rendering of
its absolute value. -/
def decimal (i : Int) : List Char :=
  if i < 0 then '-' :: decimalNat i.natAbs else decimalNat i.natAbs

/-! ## Locations and a small store used in the examples -/

/-- A location with the fixed offset of three hours east of UTC. -/
def utcPlus3 : Location := { first := 10800, tx := [] }

/-- The location `Europe/Moscow` from the winter of 2009/10 on: summer time in 2010, UTC+4
from 2011-03-27, UTC+3 from 2014-10-26 (the changes of the tz database, as UTC instants). -/
def moscowZone : Location :=
  { first := 10800,
    tx := [(⟨2010, 3, 27, 23, 0, 0, 0⟩, 14400), (⟨2010, 10, 30, 23, 0, 0, 0⟩, 10800),
           (⟨2011, 3, 26, 23, 0, 0, 0⟩, 14400), (⟨2014, 10, 25, 22, 0, 0, 0⟩, 10800)] }

/-- The location `Europe/Berlin` in 2025 and 2026: UTC+1, summer time UTC+2 from the last
Sunday of March to the last Sunday of October (changes at 01:00 UTC). -/
def berlinZone : Location :=
  { first := 3600,
    tx := [(⟨2025, 3, 30, 1, 0, 0, 0⟩, 7200), (⟨2025, 10, 26, 1, 0, 0, 0⟩, 3600),
           (⟨2026, 3, 29, 1, 0, 0, 0⟩, 7200), (⟨2026, 10, 25, 1, 0, 0, 0⟩, 3600)] }

/-- The location `America/Los_Angeles` in 2011: UTC-8, summer time UTC-7 from 2011-03-13 to
2011-11-06 (changes at 10:00 and 09:00 UTC). -/
def losAngelesZone : Location :=
  { first := -28800,
    tx := [(⟨2011, 3, 13, 10, 0, 0, 0⟩, -25200), (⟨2011, 11, 6, 9, 0, 0, 0⟩, -28800)] }

/-- A parser of the three date strings of the examples (instants in nanoseconds). -/
def demoParse (s : List Char) : Option Int :=
  if s = "2025-06-01T12:05:00+03:00".toList then some 1748768700000000000
  else if s = "2025-06-01T11:00:00+03:00".toList then some 1748764800000000000
  else if s = "2025-06-01T18:00:00+03:00".toList then some 1748790000000000000
  else none

/-- Outcomes of the external calls in which a topic is created and the post succeeds. -/
def demoNet : Net := { found := none, created := some 7, posted := true, writeErr := false }

/-- An environment in which a topic can be created and the post succeeds iff `posted`. -/
def demoEnv (posted : Bool) : Env :=
  { parseRFC3339 := demoParse,
    render := fun _ action => action,
    net := fun _ => { found := none, created := some 7, posted := posted, writeErr := false },
    deleteWriteErr := fun _ => true }

/-- The instant 2025-06-01T12:00:00+03:00. -/
def demoNow : Int := 1748768400000000000

/-- Ten minutes, in nanoseconds. -/
def tenMinutes : Int := 600000000000

/-- A reminder for 12:05 (due at `demoNow` with a lead time of ten minutes). -/
def demoDue : ReminderState :=
  { Action := "чай".toList, DateTime := "2025-06-01T12:05:00+03:00".toList, ChatID := 5,
    MessageID := 1, ThreadID := 0 }

/-- A reminder for 11:00 (its time has passed at `demoNow`). -/
def demoExpired : ReminderState :=
  { Action := "обед".toList, DateTime := "2025-06-01T11:00:00+03:00".toList, ChatID := 5,
    MessageID := 2, ThreadID := 0 }

/-- A reminder for 18:00 (not yet due at `demoNow`). -/
def demoPending : ReminderState :=
  { Action := "ужин".toList, DateTime := "2025-06-01T18:00:00+03:00".toList, ChatID := 5,
    MessageID := 3, ThreadID := 0 }

/-- A store with the three reminders. -/
def demoState : State :=
  { ReminderTopics := [],
    Reminders := [(reminderKey 5 1, demoDue), (reminderKey 5 2, demoExpired),
      (reminderKey 5 3, demoPending)] }

/-! ## Theorems -/

theorem cDigit_digitChar (d : Nat) (h : d < 10) : cDigit (digitChar d) = true := by
  interval_cases d <;> decide

theorem digitVal_digitChar (d : Nat) (h : d < 10) : digitVal (digitChar d) = d := by
  interval_cases d <;> decide

theorem addDays_same_month (y : Int) (m : Nat) :
    ∀ (k d0 : Nat), d0 + k ≤ daysIn m y → addDays k (y, m, d0) = (y, m, d0 + k) := by
  intro k
  induction k with
  | zero => intro d0 _; rfl
  | succ k ih =>
    intro d0 h
    have h1 : d0 < daysIn m y := by omega
    simp only [addDays, nextDay, h1, if_true]
    rw [ih (d0 + 1) (by omega)]
    congr 2
    omega

theorem civil_of_valid (y : Int) (m d h mi : Nat) (hm1 : 1 ≤ m) (hm2 : m ≤ 12) (hd1 : 1 ≤ d)
    (hd2 : d ≤ daysIn m y) (hh : h < 24) (hmi : mi < 60) :
    civil y m d h mi 0 0 = ⟨y, m, d, h, mi, 0, 0⟩ := by
  have e1 : mi / 60 = 0 := Nat.div_eq_of_lt hmi
  have e2 : h / 24 = 0 := Nat.div_eq_of_lt hh
  have e3 : (m - 1) / 12 = 0 := Nat.div_eq_of_lt (by omega)
  have e4 : (m - 1) % 12 + 1 = m := by rw [Nat.mod_eq_of_lt (by omega)]; omega
  have e5 : addDays (d - 1) (y, m, 1) = (y, m, d) := by
    rw [addDays_same_month y m (d - 1) 1 (by omega)]
    congr 2
    omega
  simp [civil, e1, e2, e3, e4, e5, Nat.mod_eq_of_lt hh, Nat.mod_eq_of_lt hmi]

theorem getnum_two (n : Nat) (h : n < 100) (rest : List Char) (fixed : Bool) :
    getnum (two n ++ rest) fixed = some (n, rest) := by
  have h1 : n / 10 < 10 := by omega
  have h2 : n % 10 < 10 := by omega
  simp [getnum, two, cDigit_digitChar _ h1, cDigit_digitChar _ h2, digitVal_digitChar _ h1,
    digitVal_digitChar _ h2]
  omega

theorem atoiAux_four (y : Nat) (h : y < 10000) : atoiAux (four y) 0 = some y := by
  have h1 : y / 1000 < 10 := by omega
  have h2 : y / 100 % 10 < 10 := by omega
  have h3 : y / 10 % 10 < 10 := by omega
  have h4 : y % 10 < 10 := by omega
  simp [four, atoiAux, cDigit_digitChar _ h1, cDigit_digitChar _ h2, cDigit_digitChar _ h3,
    cDigit_digitChar _ h4, digitVal_digitChar _ h1, digitVal_digitChar _ h2,
    digitVal_digitChar _ h3, digitVal_digitChar _ h4]
  omega

theorem parseStd_longYear_four (f : Fields) (y : Nat) (h : y < 10000) (rest : List Char) :
    parseStd f (four y ++ rest) Std.longYear = some ({ f with year := y }, rest) := by
  have h1 : y / 1000 < 10 := by omega
  have e := atoiAux_four y h
  simp only [four] at e
  simp [parseStd, four, cDigit_digitChar _ h1, e]

theorem parseStd_zeroDay_two (f : Fields) (n : Nat) (h : n < 100) (rest : List Char) :
    parseStd f (two n ++ rest) Std.zeroDay = some ({ f with day := n }, rest) := by
  simp [parseStd, getnum_two n h rest true]

theorem parseStd_zeroMonth_two (f : Fields) (n : Nat) (h1 : 1 ≤ n) (h2 : n ≤ 12)
    (rest : List Char) :
    parseStd f (two n ++ rest) Std.zeroMonth = some ({ f with month := n }, rest) := by
  have hm : ¬ (n = 0 ∨ 12 < n) := by omega
  simp [parseStd, getnum_two n (by omega) rest true, hm]

theorem parseStd_hour_two (f : Fields) (n : Nat) (h : n < 24) (rest : List Char) :
    parseStd f (two n ++ rest) Std.hour = some ({ f with hour := n }, rest) := by
  simp [parseStd, getnum_two n (by omega) rest false, h]

theorem parseStd_zeroMinute_two (f : Fields) (n : Nat) (h : n < 60) (rest : List Char) :
    parseStd f (two n ++ rest) Std.zeroMinute = some ({ f with min := n }, rest) := by
  simp [parseStd, getnum_two n (by omega) rest true, h]

theorem parseStd_dot (f : Fields) (rest : List Char) :
    parseStd f ('.' :: rest) (Std.lit '.') = some (f, rest) := by
  simp [parseStd]

theorem parseStd_colon (f : Fields) (rest : List Char) :
    parseStd f (':' :: rest) (Std.lit ':') = some (f, rest) := by
  simp [parseStd]

theorem digitChar_ne_space (d : Nat) : (digitChar d == ' ') = false := by
  unfold digitChar
  split <;> decide

theorem parseStd_space_two (f : Fields) (n : Nat) (rest : List Char) :
    parseStd f (' ' :: (two n ++ rest)) (Std.lit ' ') = some (f, two n ++ rest) := by
  simp [parseStd, two, List.dropWhile, digitChar_ne_space]

theorem digitsAux_succ (fuel n : Nat) (acc : List Char) :
    digitsAux (fuel + 1) n acc =
      if n / 10 = 0 then digitChar (n % 10) :: acc
      else digitsAux fuel (n / 10) (digitChar (n % 10) :: acc) := rfl

theorem natStr_four (y : Nat) (h1 : 1000 ≤ y) (h2 : y ≤ 9999) : natStr y = four y := by
  have a1 : ¬ (y / 10 = 0) := by omega
  have a2 : ¬ (y / 10 / 10 = 0) := by omega
  have a3 : ¬ (y / 10 / 10 / 10 = 0) := by omega
  have a4 : y / 10 / 10 / 10 / 10 = 0 := by omega
  have b1 : y / 10 / 10 / 10 % 10 = y / 1000 := by omega
  have b2 : y / 10 / 10 % 10 = y / 100 % 10 := by omega
  have e : y + 1 = (y - 3) + 1 + 1 + 1 + 1 := by omega
  unfold natStr
  rw [e, digitsAux_succ, if_neg a1, digitsAux_succ, if_neg a2, digitsAux_succ, if_neg a3,
    digitsAux_succ, if_pos a4, b1, b2]
  rfl

theorem ParseInLocation_dayMonth (loc : Location) (d m y hh mi : Nat) (hy1 : 1000 ≤ y)
    (hy2 : y ≤ 9999) (hm1 : 1 ≤ m) (hm2 : m ≤ 12) (hd1 : 1 ≤ d) (hd2 : d ≤ daysIn m y)
    (hh1 : hh < 24) (hmi : mi < 60) :
    ParseInLocation layoutDateTime
      (dayMonthText d m ++ ['.'] ++ fmtD (y : Int) ++ [' '] ++ clockText hh mi) loc
      = some (Date y m d hh mi 0 0 loc) := by
  have hd3 : d < 100 := by
    have : daysIn m y ≤ 31 := by unfold daysIn; split_ifs <;> omega
    omega
  have ef : fmtD (y : Int) = four y := natStr_four y hy1 hy2
  have e0 : dayMonthText d m ++ ['.'] ++ fmtD (y : Int) ++ [' '] ++ clockText hh mi
      = two d ++ '.' :: (two m ++ '.' :: (four y ++ ' ' :: (two hh ++ ':' :: (two mi ++ [])))) := by
    simp [dayMonthText, clockText, ef]
  have e1 : parseLayout layoutDateTime {}
      (dayMonthText d m ++ ['.'] ++ fmtD (y : Int) ++ [' '] ++ clockText hh mi)
      = some { year := y, month := m, day := d, hour := hh, min := mi } := by
    rw [e0]
    simp only [layoutDateTime, parseLayout, parseStd_zeroDay_two _ d hd3,
      parseStd_zeroMonth_two _ m hm1 hm2, parseStd_dot, parseStd_longYear_four _ y (by omega),
      parseStd_space_two, parseStd_hour_two _ hh hh1, parseStd_colon,
      parseStd_zeroMinute_two _ mi hmi]
    simp
  simp only [ParseInLocation, e1]
  rw [if_neg (by simp; omega)]

theorem addDays_succ_right (n : Nat) : ∀ x, addDays (n + 1) x = nextDay (addDays n x) := by
  induction n with
  | zero => intro x; rfl
  | succ n ih => intro x; exact ih (nextDay x)

theorem addDays_add (a : Nat) : ∀ (b : Nat) x, addDays (a + b) x = addDays b (addDays a x) := by
  induction a with
  | zero => intro b x; simp [addDays]
  | succ a ih =>
    intro b x
    have : a + 1 + b = (a + b) + 1 := by omega
    rw [this]
    exact ih b (nextDay x)

theorem isLeap_succ (y : Int) (h : isLeap y = true) : isLeap (y + 1) = false := by
  simp only [isLeap, Bool.and_eq_true, beq_iff_eq, Bool.or_eq_true, bne_iff_ne, ne_eq,
    Bool.and_eq_false_imp] at h ⊢
  intro h4
  omega

theorem daysIn_ge (m : Nat) (y : Int) : 28 ≤ daysIn m y := by
  unfold daysIn; split_ifs <;> omega

theorem daysIn_succ_year (m d : Nat) (y : Int) (hd : d ≤ daysIn m y) (hne : ¬ (m = 2 ∧ d = 29)) :
    d ≤ daysIn m (y + 1) := by
  unfold daysIn at hd ⊢
  by_cases hm : m = 2
  · simp only [hm, if_true] at hd ⊢
    have : d ≠ 29 := fun h => hne ⟨hm, h⟩
    split_ifs at hd ⊢ <;> omega
  · simp only [hm, if_false] at hd ⊢
    exact hd

theorem nextDay_ok (a : Int × Nat × Nat) (h : DateOK a) :
    DateOK (nextDay a) ∧ dateLt a (nextDay a) := by
  obtain ⟨y, m, d⟩ := a
  obtain ⟨h1, h2, h3, h4⟩ := h
  simp only at h1 h2 h3 h4
  unfold nextDay
  simp only
  have g := daysIn_ge
  split_ifs with c1 c2
  · refine ⟨⟨h1, h2, by simp, by simp; omega⟩, ?_⟩
    simp [dateLt]
  · refine ⟨⟨by simp, by simp; omega, by simp, by have := g (m + 1) y; simp; omega⟩, ?_⟩
    simp [dateLt]
  · refine ⟨⟨by simp, by simp, by simp, by have := g 1 (y + 1); simp; omega⟩, ?_⟩
    simp [dateLt]

theorem dateLt_trans (a b c : Int × Nat × Nat) (h1 : dateLt a b) (h2 : dateLt b c) :
    dateLt a c := by
  unfold dateLt at *
  omega

theorem addDays_ok (k : Nat) : ∀ a, DateOK a →
    DateOK (addDays k a) ∧ (addDays k a = a ∨ dateLt a (addDays k a)) := by
  induction k with
  | zero => intro a h; exact ⟨h, Or.inl rfl⟩
  | succ k ih =>
    intro a h
    obtain ⟨o1, l1⟩ := nextDay_ok a h
    obtain ⟨o2, l2⟩ := ih (nextDay a) o1
    refine ⟨o2, Or.inr ?_⟩
    rcases l2 with e | l
    · show dateLt a (addDays k (nextDay a))
      rw [e]; exact l1
    · exact dateLt_trans _ _ _ l1 l

theorem daysIn_twelve (y : Int) : daysIn 12 y = 31 := by
  simp [daysIn]

theorem prevDay_ok (a : Int × Nat × Nat) (h : DateOK a) : DateOK (prevDay a) := by
  obtain ⟨y, m, d⟩ := a
  obtain ⟨h1, h2, h3, h4⟩ := h
  simp only at h1 h2 h3 h4
  unfold prevDay
  simp only
  split_ifs with c1 c2
  · exact ⟨h1, h2, by simp; omega, by simp; omega⟩
  · exact ⟨by simp; omega, by simp; omega, by have := daysIn_ge (m - 1) y; simp; omega,
      by simp⟩
  · exact ⟨by simp, by simp, by simp, by simp [daysIn_twelve]⟩

theorem next_prev (a : Int × Nat × Nat) (h : DateOK a) : nextDay (prevDay a) = a := by
  obtain ⟨y, m, d⟩ := a
  obtain ⟨h1, h2, h3, h4⟩ := h
  simp only at h1 h2 h3 h4
  unfold prevDay
  simp only
  split_ifs with c1 c2
  · have : d - 1 < daysIn m y := by omega
    simp only [nextDay, this, if_true, Prod.mk.injEq, true_and]
    omega
  · have e1 : ¬ (daysIn (m - 1) y < daysIn (m - 1) y) := by omega
    have e2 : m - 1 < 12 := by omega
    have e3 : d = 1 := by omega
    simp only [nextDay, e1, e2, if_false, if_true, Prod.mk.injEq, true_and]
    omega
  · have e1 : ¬ (31 < daysIn 12 (y - 1)) := by rw [daysIn_twelve]; omega
    have e3 : d = 1 := by omega
    have e4 : m = 1 := by omega
    simp only [nextDay, e1, if_false, lt_self_iff_false, Prod.mk.injEq]
    omega

theorem prev_next (a : Int × Nat × Nat) (h : DateOK a) : prevDay (nextDay a) = a := by
  obtain ⟨y, m, d⟩ := a
  obtain ⟨h1, h2, h3, h4⟩ := h
  simp only at h1 h2 h3 h4
  unfold nextDay
  simp only
  split_ifs with c1 c2
  · have : 1 < d + 1 := by omega
    simp only [prevDay, this, if_true, Prod.mk.injEq, true_and]
    omega
  · have e1 : ¬ (1 < 1) := by omega
    have e2 : 1 < m + 1 := by omega
    have e3 : d = daysIn m y := by omega
    simp only [prevDay, e1, e2, if_false, if_true, Prod.mk.injEq, true_and,
      Nat.add_sub_cancel]
    exact e3.symm
  · have e1 : ¬ (1 < 1) := by omega
    have e4 : m = 12 := by omega
    have e3 : d = 31 := by
      rw [e4, daysIn_twelve] at h4 c1
      omega
    simp only [prevDay, e1, if_false, Prod.mk.injEq]
    omega

theorem subDays_ok (n : Nat) (a : Int × Nat × Nat) (h : DateOK a) : DateOK (subDays n a) := by
  induction n with
  | zero => exact h
  | succ n ih => exact prevDay_ok _ ih

theorem shiftDays_ok (k : Int) (a : Int × Nat × Nat) (h : DateOK a) :
    DateOK (shiftDays k a) := by
  cases k with
  | ofNat n => exact (addDays_ok n a h).1
  | negSucc n => exact subDays_ok (n + 1) a h

theorem shiftDays_succ (k : Int) (a : Int × Nat × Nat) (h : DateOK a) :
    shiftDays (k + 1) a = nextDay (shiftDays k a) := by
  cases k with
  | ofNat n => exact addDays_succ_right n a
  | negSucc n =>
    cases n with
    | zero =>
      show a = nextDay (prevDay a)
      rw [next_prev a h]
    | succ n =>
      show subDays (n + 1) a = nextDay (prevDay (subDays (n + 1) a))
      rw [next_prev _ (subDays_ok (n + 1) a h)]

theorem shiftDays_pred (k : Int) (a : Int × Nat × Nat) (h : DateOK a) :
    shiftDays (k - 1) a = prevDay (shiftDays k a) := by
  cases k with
  | ofNat n =>
    cases n with
    | zero => rfl
    | succ n =>
      have e : Int.ofNat (n + 1) - 1 = Int.ofNat n := by
        simp only [Int.ofNat_eq_coe]
        omega
      rw [e]
      show addDays n a = prevDay (addDays (n + 1) a)
      rw [addDays_succ_right, prev_next _ (addDays_ok n a h).1]
  | negSucc n => rfl

theorem shiftDays_add (a b : Int) (x : Int × Nat × Nat) (h : DateOK x) :
    shiftDays b (shiftDays a x) = shiftDays (a + b) x := by
  have hx := shiftDays_ok a x h
  induction b using Int.induction_on with
  | hz => simp only [add_zero]; rfl
  | hp i ih =>
    rw [shiftDays_succ _ _ hx, ih, ← add_assoc, shiftDays_succ _ _ h]
  | hn i ih =>
    rw [shiftDays_pred _ _ hx, ih, ← add_sub_assoc, shiftDays_pred _ _ h]

theorem Valid_dateOK (t : Time) (h : t.Valid) : DateOK (t.year, t.month, t.day) :=
  ⟨h.1, h.2.1, h.2.2.1, h.2.2.2.1⟩

theorem AddSeconds_eq_of (t : Time) (k q : Int) (r : Nat)
    (hq : (t.secOfDay : Int) + k = 86400 * q + r) (hr : r < 86400) :
    t.AddSeconds k =
      ⟨(shiftDays q (t.year, t.month, t.day)).1, (shiftDays q (t.year, t.month, t.day)).2.1,
        (shiftDays q (t.year, t.month, t.day)).2.2, r / 3600, r % 3600 / 60, r % 60, t.nsec⟩ := by
  have e1 : ((t.secOfDay : Int) + k) / 86400 = q := by omega
  have e2 : (((t.secOfDay : Int) + k) % 86400).toNat = r := by omega
  unfold Time.AddSeconds
  simp only [e1, e2]

theorem AddSeconds_date (t : Time) (k : Int) :
    ((t.AddSeconds k).year, (t.AddSeconds k).month, (t.AddSeconds k).day)
      = shiftDays (((t.secOfDay : Int) + k) / 86400) (t.year, t.month, t.day) := rfl

theorem AddSeconds_secOfDay (t : Time) (k : Int) :
    ((t.AddSeconds k).secOfDay : Int) = ((t.secOfDay : Int) + k) % 86400 := by
  unfold Time.AddSeconds Time.secOfDay
  simp only
  omega

theorem AddSeconds_nsec (t : Time) (k : Int) : (t.AddSeconds k).nsec = t.nsec := rfl

theorem AddSeconds_add (t : Time) (a b : Int) (h : t.Valid) :
    (t.AddSeconds a).AddSeconds b = t.AddSeconds (a + b) := by
  have hs := AddSeconds_secOfDay t a
  have hd := AddSeconds_date t a
  have e1 := AddSeconds_eq_of (t.AddSeconds a) b
    ((((t.AddSeconds a).secOfDay : Int) + b) / 86400)
    ((((t.AddSeconds a).secOfDay : Int) + b) % 86400).toNat (by omega) (by omega)
  have e2 := AddSeconds_eq_of t (a + b)
    (((t.secOfDay : Int) + a) / 86400 + (((t.AddSeconds a).secOfDay : Int) + b) / 86400)
    ((((t.AddSeconds a).secOfDay : Int) + b) % 86400).toNat (by omega) (by omega)
  rw [e1, e2, hd, shiftDays_add _ _ _ (Valid_dateOK t h), AddSeconds_nsec]

theorem AddSeconds_zero (t : Time) (h : t.Valid) : t.AddSeconds 0 = t := by
  obtain ⟨_, _, _, _, h5, h6, h7, _⟩ := h
  have e := AddSeconds_eq_of t 0 0 t.secOfDay (by omega) (by unfold Time.secOfDay; omega)
  rw [e]
  have a1 : t.secOfDay / 3600 = t.hour := by unfold Time.secOfDay; omega
  have a2 : t.secOfDay % 3600 / 60 = t.minute := by unfold Time.secOfDay; omega
  have a3 : t.secOfDay % 60 = t.second := by unfold Time.secOfDay; omega
  rw [a1, a2, a3]
  rfl

theorem AddSeconds_cancel (t : Time) (a : Int) (h : t.Valid) :
    (t.AddSeconds (-a)).AddSeconds a = t := by
  rw [AddSeconds_add t (-a) a h, neg_add_cancel, AddSeconds_zero t h]

theorem AddSeconds_cancel_neg (t : Time) (a : Int) (h : t.Valid) :
    (t.AddSeconds a).AddSeconds (-a) = t := by
  rw [AddSeconds_add t a (-a) h, add_neg_cancel, AddSeconds_zero t h]

theorem civil_valid (y : Int) (m d h mi s ns : Nat) : (civil y m d h mi s ns).Valid := by
  have hstart : DateOK (y + (((m - 1) / 12 : Nat) : Int), (m - 1) % 12 + 1, 1) := by
    refine ⟨by simp, by simp; omega, by simp, ?_⟩
    have := daysIn_ge ((m - 1) % 12 + 1) (y + (((m - 1) / 12 : Nat) : Int))
    simp only
    omega
  obtain ⟨⟨d1, d2, d3, d4⟩, _⟩ := addDays_ok
    (d + (h + (mi + (s + ns / 1000000000) / 60) / 60) / 24 - 1) _ hstart
  refine ⟨d1, d2, d3, d4, ?_, ?_, ?_, ?_⟩
  · exact Nat.mod_lt _ (by omega)
  · exact Nat.mod_lt _ (by omega)
  · exact Nat.mod_lt _ (by omega)
  · exact Nat.mod_lt _ (by omega)

theorem civil_leap_day (y : Int) (hh mi : Nat) (hl : 29 ≤ daysIn 2 y) :
    civil (y + 1) 2 29 hh mi 0 0 = civil (y + 1) 3 1 hh mi 0 0 := by
  have hl0 : isLeap y = true := by
    by_contra hn
    simp [daysIn, hn] at hl
  have hl1 := isLeap_succ y hl0
  have e28 : daysIn 2 (y + 1) = 28 := by simp [daysIn, hl1]
  have e5 : addDays 28 (y + 1, 2, 1) = (y + 1, 3, 1) := by
    rw [addDays_succ_right 27, addDays_same_month (y + 1) 2 27 1 (by omega)]
    simp [nextDay, e28]
  have e6 : ∀ k, addDays (28 + k) (y + 1, 2, 1) = addDays k (y + 1, 3, 1) := by
    intro k
    rw [addDays_add, e5]
  simp [civil, e6]

theorem Date_congr (loc : Location) (a b : Int) (m1 d1 h1 mi1 s1 n1 m2 d2 h2 mi2 s2 n2 : Nat)
    (h : civil a m1 d1 h1 mi1 s1 n1 = civil b m2 d2 h2 mi2 s2 n2) :
    Date a m1 d1 h1 mi1 s1 n1 loc = Date b m2 d2 h2 mi2 s2 n2 loc := by
  unfold Date
  rw [h]

theorem lookup_fixed (loc : Location) (h : loc.tx = []) (t : Time) :
    loc.lookup t = (loc.first, none, none) := by
  unfold Location.lookup
  rw [h]
  rfl

theorem Date_fixed (loc : Location) (h : loc.tx = []) (y : Int) (m d hh mi s ns : Nat) :
    Date y m d hh mi s ns loc = (civil y m d hh mi s ns).AddSeconds (-loc.first) := by
  unfold Date
  simp only [lookup_fixed loc h]
  by_cases h0 : loc.first = 0
  · simp [h0, AddSeconds_zero _ (civil_valid y m d hh mi s ns)]
  · simp [h0]

theorem wall_fixed (loc : Location) (h : loc.tx = []) (t : Time) :
    t.wall loc = t.AddSeconds loc.first := by
  unfold Time.wall
  rw [lookup_fixed loc h]

theorem wall_Date_fixed (loc : Location) (h : loc.tx = []) (y : Int) (m d hh mi s ns : Nat) :
    (Date y m d hh mi s ns loc).wall loc = civil y m d hh mi s ns := by
  rw [wall_fixed loc h, Date_fixed loc h, AddSeconds_cancel _ _ (civil_valid y m d hh mi s ns)]

/-- Readings around the two offset changes of 2011 in America/Los_Angeles, rows of the table
that package `time` tests `Date` with: 01:59:59 and 03:00:00 of 2011-03-13 are one second
apart, the skipped 02:30:00 comes out as 09:30:00 UTC (01:30 before the change); of the
repeated hour of 2011-11-06 the first one is taken. -/
theorem Date_losAngeles :
    Date 2011 3 13 1 59 59 0 losAngelesZone = ⟨2011, 3, 13, 9, 59, 59, 0⟩
    ∧ Date 2011 3 13 3 0 0 0 losAngelesZone = ⟨2011, 3, 13, 10, 0, 0, 0⟩
    ∧ Date 2011 3 13 2 30 0 0 losAngelesZone = ⟨2011, 3, 13, 9, 30, 0, 0⟩
    ∧ (Date 2011 3 13 2 30 0 0 losAngelesZone).wall losAngelesZone
      = ⟨2011, 3, 13, 1, 30, 0, 0⟩
    ∧ Date 2011 11 6 1 0 0 0 losAngelesZone = ⟨2011, 11, 6, 8, 0, 0, 0⟩
    ∧ Date 2011 11 6 1 59 59 0 losAngelesZone = ⟨2011, 11, 6, 8, 59, 59, 0⟩
    ∧ Date 2011 11 6 2 0 0 0 losAngelesZone = ⟨2011, 11, 6, 10, 0, 0, 0⟩ := by
  decide

theorem tryFullDate_none (loc : Location) (text : List Char)
    (h : FindStringSubmatch reFullDate text = none) : tryFullDate loc text = none := by
  simp [tryFullDate, h]

/-- C2 (as amended). When the text does not match the explicit-date expression and the match
of `DD.MM HH:MM` is a day, month and clock time valid in the year of `now` in the location (a
year of four digits), the result is ok. Let `t` be `time.Date` of `DD.MM` of that year at
`HH:MM`. If `t` reads back as that date and clock time in the location, the result is `t`
unless `t` is before `now`, and then it is `time.Date` of the same day, month, hour and
minute one year later, with 29.02 turned into 01.03. In a location with a fixed offset `t`
always reads back, and the result reads as that day, month, hour and minute of the year of
`now` or, when `t` is before `now`, of the next year, with 29.02 turned into 01.03. -/
theorem parseDateTime_dayMonth (loc : Location) (now : Time) (text whole : List Char)
    (d m y hh mi : Nat)
    (hnot : FindStringSubmatch reFullDate text = none)
    (hfind : FindStringSubmatch dateRegex text
      = some [whole, dayMonthText d m, clockText hh mi])
    (hyear : (now.wall loc).year = y) (hy1 : 1000 ≤ y) (hy2 : y ≤ 9999)
    (hm1 : 1 ≤ m) (hm2 : m ≤ 12) (hd1 : 1 ≤ d) (hd2 : d ≤ daysIn m y)
    (hh1 : hh ≤ 23) (hmi : mi ≤ 59) :
    (parseDateTime loc now text).2 = true
    ∧ ((Date y m d hh mi 0 0 loc).wall loc = ⟨y, m, d, hh, mi, 0, 0⟩ →
      (parseDateTime loc now text).1 =
        if (Date y m d hh mi 0 0 loc).Before now then
          (if m = 2 ∧ d = 29 then Date (y + 1) 3 1 hh mi 0 0 loc
           else Date (y + 1) m d hh mi 0 0 loc)
        else Date y m d hh mi 0 0 loc)
    ∧ (loc.tx = [] →
      (Date y m d hh mi 0 0 loc).wall loc = ⟨y, m, d, hh, mi, 0, 0⟩
      ∧ (parseDateTime loc now text).1.wall loc =
        if (Date y m d hh mi 0 0 loc).Before now then
          (if m = 2 ∧ d = 29 then ⟨y + 1, 3, 1, hh, mi, 0, 0⟩
           else ⟨y + 1, m, d, hh, mi, 0, 0⟩)
        else ⟨y, m, d, hh, mi, 0, 0⟩) := by
  have hfall : tryFullDate loc text = none := tryFullDate_none loc text hnot
  have hparse := ParseInLocation_dayMonth loc d m y hh mi hy1 hy2 hm1 hm2 hd1 hd2 (by omega)
    (by omega)
  have hblock : tryDayMonth loc now text = some
      (if (Date y m d hh mi 0 0 loc).Before now then (Date y m d hh mi 0 0 loc).AddYear loc
       else Date y m d hh mi 0 0 loc) := by
    simp only [tryDayMonth, hfind, sub, List.getD_cons_succ, List.getD_cons_zero, hyear, hparse]
  have hres : parseDateTime loc now text =
      (if (Date y m d hh mi 0 0 loc).Before now then (Date y m d hh mi 0 0 loc).AddYear loc
       else Date y m d hh mi 0 0 loc, true) := by
    unfold parseDateTime
    simp only [hfall, hblock]
  have hyearLater : (Date y m d hh mi 0 0 loc).wall loc = ⟨y, m, d, hh, mi, 0, 0⟩ →
      (Date y m d hh mi 0 0 loc).AddYear loc =
        if m = 2 ∧ d = 29 then Date (y + 1) 3 1 hh mi 0 0 loc
        else Date (y + 1) m d hh mi 0 0 loc := by
    intro hback
    unfold Time.AddYear
    rw [hback]
    by_cases hc : m = 2 ∧ d = 29
    · obtain ⟨rfl, rfl⟩ := hc
      rw [if_pos ⟨rfl, rfl⟩]
      exact Date_congr loc _ _ _ _ _ _ _ _ _ _ _ _ _ _ (civil_leap_day y hh mi hd2)
    · rw [if_neg hc]
  have hnext : ¬ (m = 2 ∧ d = 29) → d ≤ daysIn m ((y : Int) + 1) :=
    fun hc => daysIn_succ_year m d y hd2 hc
  refine ⟨by rw [hres], ?_, ?_⟩
  · intro hback
    rw [hres]
    show (if (Date y m d hh mi 0 0 loc).Before now then (Date y m d hh mi 0 0 loc).AddYear loc
       else Date y m d hh mi 0 0 loc) = _
    rw [hyearLater hback]
  · intro hfix
    have hback : (Date y m d hh mi 0 0 loc).wall loc = ⟨y, m, d, hh, mi, 0, 0⟩ := by
      rw [wall_Date_fixed loc hfix,
        civil_of_valid y m d hh mi hm1 hm2 hd1 hd2 (by omega) (by omega)]
    refine ⟨hback, ?_⟩
    rw [hres]
    show (if (Date y m d hh mi 0 0 loc).Before now then (Date y m d hh mi 0 0 loc).AddYear loc
       else Date y m d hh mi 0 0 loc).wall loc = _
    rw [hyearLater hback]
    by_cases hb : (Date y m d hh mi 0 0 loc).Before now = true
    · rw [if_pos hb, if_pos hb]
      by_cases hc : m = 2 ∧ d = 29
      · rw [if_pos hc, if_pos hc, wall_Date_fixed loc hfix,
          civil_of_valid (y + 1) 3 1 hh mi (by omega) (by omega) (by omega)
            (by have := daysIn_ge 3 ((y : Int) + 1); omega) (by omega) (by omega)]
      · rw [if_neg hc, if_neg hc, wall_Date_fixed loc hfix,
          civil_of_valid (y + 1) m d hh mi hm1 hm2 hd1 (hnext hc) (by omega) (by omega)]
    · rw [if_neg hb, if_neg hb]
      exact hback

/-- Witness of C2: at 2025-12-29T21:00Z, which is 2025-12-30T00:00 at +03:00, the text
`02.01 10:00` gives a time that reads 2026-01-02T10:00:00 there. In Europe/Berlin at
2025-12-29T23:00Z (2025-12-30T00:00 there) it gives `time.Date` of 2026-01-02 10:00, which
reads 2026-01-02T10:00:00 there. -/
theorem parseDateTime_dayMonth_witness :
    (Date 2025 1 2 10 0 0 0 utcPlus3).Before ⟨2025, 12, 29, 21, 0, 0, 0⟩ = true
    ∧ (parseDateTime utcPlus3 ⟨2025, 12, 29, 21, 0, 0, 0⟩ "02.01 10:00".toList).2 = true
    ∧ (parseDateTime utcPlus3 ⟨2025, 12, 29, 21, 0, 0, 0⟩ "02.01 10:00".toList).1.wall utcPlus3
      = ⟨2026, 1, 2, 10, 0, 0, 0⟩
    ∧ (parseDateTime berlinZone ⟨2025, 12, 29, 23, 0, 0, 0⟩ "02.01 10:00".toList).1
      = Date 2026 1 2 10 0 0 0 berlinZone
    ∧ (Date 2026 1 2 10 0 0 0 berlinZone).wall berlinZone = ⟨2026, 1, 2, 10, 0, 0, 0⟩ :=
  ⟨by decide,
   (parseDateTime_dayMonth utcPlus3 ⟨2025, 12, 29, 21, 0, 0, 0⟩ "02.01 10:00".toList
      "02.01 10:00".toList 2 1 2025 10 0 (by decide) (by decide) (by decide) (by decide)
      (by decide) (by decide) (by decide) (by decide) (by decide) (by decide) (by decide)).1,
   ((parseDateTime_dayMonth utcPlus3 ⟨2025, 12, 29, 21, 0, 0, 0⟩ "02.01 10:00".toList
      "02.01 10:00".toList 2 1 2025 10 0 (by decide) (by decide) (by decide) (by decide)
      (by decide) (by decide) (by decide) (by decide) (by decide) (by decide)
      (by decide)).2.2 rfl).2,
   (parseDateTime_dayMonth berlinZone ⟨2025, 12, 29, 23, 0, 0, 0⟩ "02.01 10:00".toList
      "02.01 10:00".toList 2 1 2025 10 0 (by decide) (by decide) (by decide) (by decide)
      (by decide) (by decide) (by decide) (by decide) (by decide) (by decide)
      (by decide)).2.1 (by decide),
   by decide⟩

/-- Counterexamples to C2 as stated. First, at 2024-03-01T09:00Z (12:00 at +03:00) the text
`29.02 10:00` matches the day/month expression only, 29.02 10:00 is valid in 2024 and before
`now`, and the result reads 2025-03-01T10:00:00: neither the day nor the month is kept.
Second, in Europe/Berlin at 2026-02-28T23:00Z (2026-03-01T00:00 there) the text `29.03 02:30`
names a day, month and clock time that are not before `now`, and the result reads 03:30 of
that day: the clocks go from 02:00 to 03:00 that night. -/
theorem parseDateTime_dayMonth_refuted :
    (FindStringSubmatch reFullDate "29.02 10:00".toList = none
      ∧ FindStringSubmatch dateRegex "29.02 10:00".toList
        = some ["29.02 10:00".toList, dayMonthText 29 2, clockText 10 0]
      ∧ ((⟨2024, 3, 1, 9, 0, 0, 0⟩ : Time).wall utcPlus3).year = 2024
      ∧ 29 ≤ daysIn 2 2024
      ∧ (Date 2024 2 29 10 0 0 0 utcPlus3).Before ⟨2024, 3, 1, 9, 0, 0, 0⟩ = true
      ∧ (parseDateTime utcPlus3 ⟨2024, 3, 1, 9, 0, 0, 0⟩ "29.02 10:00".toList).2 = true
      ∧ (parseDateTime utcPlus3 ⟨2024, 3, 1, 9, 0, 0, 0⟩ "29.02 10:00".toList).1.wall utcPlus3
        = ⟨2025, 3, 1, 10, 0, 0, 0⟩)
    ∧ (FindStringSubmatch reFullDate "29.03 02:30".toList = none
      ∧ FindStringSubmatch dateRegex "29.03 02:30".toList
        = some ["29.03 02:30".toList, dayMonthText 29 3, clockText 2 30]
      ∧ (⟨2026, 2, 28, 23, 0, 0, 0⟩ : Time).wall berlinZone = ⟨2026, 3, 1, 0, 0, 0, 0⟩
      ∧ 29 ≤ daysIn 3 2026
      ∧ (Date 2026 3 29 2 30 0 0 berlinZone).Before ⟨2026, 2, 28, 23, 0, 0, 0⟩ = false
      ∧ (parseDateTime berlinZone ⟨2026, 2, 28, 23, 0, 0, 0⟩ "29.03 02:30".toList).2 = true
      ∧ (parseDateTime berlinZone ⟨2026, 2, 28, 23, 0, 0, 0⟩ "29.03 02:30".toList).1.wall
          berlinZone = ⟨2026, 3, 29, 3, 30, 0, 0⟩) := by
  decide

theorem TrimSpace_eq_nil_iff (l : List Char) : TrimSpace l = [] ↔ l.all isSpace = true := by
  unfold TrimSpace
  rw [List.rdropWhile_eq_nil_iff]
  constructor
  · intro h
    rw [List.all_eq_true]
    intro x hx
    by_contra hn
    have hd : List.dropWhile isSpace l ≠ [] := by
      intro e
      rw [List.dropWhile_eq_nil_iff] at e
      exact hn (e x hx)
    have h0 := List.head_dropWhile_not isSpace l hd
    have h1 := h _ (List.head_mem hd)
    rw [h1] at h0
    exact absurd h0 (by decide)
  · intro h x hx
    rw [List.all_eq_true] at h
    have : List.dropWhile isSpace l = [] := by
      rw [List.dropWhile_eq_nil_iff]; exact h
    rw [this] at hx
    exact absurd hx (List.not_mem_nil x)

theorem TrimSpace_cons_space (c : Char) (l : List Char) (h : isSpace c = true) :
    TrimSpace (c :: l) = TrimSpace l := by
  unfold TrimSpace
  rw [List.dropWhile_cons_of_pos h]

theorem dropWhile_concat_of_ne_nil (p : Char → Bool) (l : List Char) (c : Char)
    (h : l.dropWhile p ≠ []) : (l ++ [c]).dropWhile p = l.dropWhile p ++ [c] := by
  induction l with
  | nil => exact absurd rfl h
  | cons a l ih =>
    by_cases ha : p a = true
    · rw [List.cons_append, List.dropWhile_cons_of_pos ha, List.dropWhile_cons_of_pos ha]
      rw [List.dropWhile_cons_of_pos ha] at h
      exact ih h
    · rw [List.cons_append, List.dropWhile_cons_of_neg ha, List.dropWhile_cons_of_neg ha]
      rfl

theorem TrimSpace_concat_space (c : Char) (l : List Char) (h : isSpace c = true) :
    TrimSpace (l ++ [c]) = TrimSpace l := by
  by_cases hl : l.dropWhile isSpace = []
  · have e1 : TrimSpace l = [] := by
      rw [TrimSpace_eq_nil_iff, List.all_eq_true]
      exact List.dropWhile_eq_nil_iff.mp hl
    have e2 : TrimSpace (l ++ [c]) = [] := by
      rw [TrimSpace_eq_nil_iff, List.all_eq_true]
      intro x hx
      rcases List.mem_append.mp hx with hx | hx
      · exact List.dropWhile_eq_nil_iff.mp hl x hx
      · rw [List.mem_singleton] at hx
        rw [hx]; exact h
    rw [e1, e2]
  · unfold TrimSpace
    rw [dropWhile_concat_of_ne_nil isSpace l c hl, List.rdropWhile_concat_pos _ _ _ h]

theorem Split_concat (c : Char) : ∀ s : List Char, ∃ init last, Split s = init ++ [last] ∧
    Split (s ++ [c]) = if c = '\n' then init ++ [last, []] else init ++ [last ++ [c]] := by
  intro s
  induction s with
  | nil =>
    refine ⟨[], [], rfl, ?_⟩
    by_cases hc : c = '\n'
    · simp [Split, hc]
    · simp [Split, hc]
  | cons a s ih =>
    obtain ⟨init, last, e1, e2⟩ := ih
    by_cases ha : a = '\n'
    · refine ⟨[] :: init, last, ?_, ?_⟩
      · simp [Split, ha, e1]
      · rw [List.cons_append]
        simp only [Split, ha, if_true, e2]
        split_ifs <;> simp
    · cases init with
      | nil =>
        refine ⟨[], a :: last, ?_, ?_⟩
        · simp [Split, ha, e1]
        · rw [List.cons_append]
          simp only [Split, ha, if_false, e2]
          split_ifs <;> simp
      | cons i0 irest =>
        refine ⟨(a :: i0) :: irest, last, ?_, ?_⟩
        · simp [Split, ha, e1]
        · rw [List.cons_append]
          simp only [Split, ha, if_false, e2]
          split_ifs <;> simp

theorem nonEmptyLinesOf_append (a b : List (List Char)) :
    nonEmptyLinesOf (a ++ b) = nonEmptyLinesOf a ++ nonEmptyLinesOf b := by
  simp [nonEmptyLinesOf, List.filterMap_append]

theorem nonEmptyLinesOf_singleton (l : List Char) :
    nonEmptyLinesOf [l] = if TrimSpace l = [] then [] else [TrimSpace l] := by
  by_cases h : TrimSpace l = [] <;> simp [nonEmptyLinesOf, List.filterMap, h]

theorem nonEmptyLinesOf_cons (l : List Char) (ls : List (List Char)) :
    nonEmptyLinesOf (l :: ls) = nonEmptyLinesOf [l] ++ nonEmptyLinesOf ls :=
  nonEmptyLinesOf_append [l] ls

theorem TrimSpace_nil : TrimSpace [] = [] := rfl

theorem nonEmptyLinesOf_Split_cons_space (c : Char) (s : List Char) (h : isSpace c = true) :
    nonEmptyLinesOf (Split (c :: s)) = nonEmptyLinesOf (Split s) := by
  by_cases hc : c = '\n'
  · simp only [Split, hc, if_true]
    rw [nonEmptyLinesOf_cons, nonEmptyLinesOf_singleton, TrimSpace_nil]
    simp
  · obtain ⟨l, ls, e⟩ : ∃ l ls, Split s = l :: ls := by
      obtain ⟨init, last, e1, _⟩ := Split_concat c s
      cases init with
      | nil => exact ⟨last, [], e1⟩
      | cons i0 irest => exact ⟨i0, irest ++ [last], e1⟩
    simp only [Split, hc, if_false, e]
    rw [nonEmptyLinesOf_cons, nonEmptyLinesOf_cons l, nonEmptyLinesOf_singleton,
      nonEmptyLinesOf_singleton, TrimSpace_cons_space c l h]

theorem nonEmptyLinesOf_Split_dropWhile (s : List Char) :
    nonEmptyLinesOf (Split (s.dropWhile isSpace)) = nonEmptyLinesOf (Split s) := by
  induction s with
  | nil => rfl
  | cons c s ih =>
    by_cases h : isSpace c = true
    · rw [List.dropWhile_cons_of_pos h, ih, nonEmptyLinesOf_Split_cons_space c s h]
    · rw [List.dropWhile_cons_of_neg h]

theorem nonEmptyLinesOf_Split_concat_space (c : Char) (s : List Char) (h : isSpace c = true) :
    nonEmptyLinesOf (Split (s ++ [c])) = nonEmptyLinesOf (Split s) := by
  obtain ⟨init, last, e1, e2⟩ := Split_concat c s
  rw [e1, e2]
  by_cases hc : c = '\n'
  · rw [if_pos hc, nonEmptyLinesOf_append, nonEmptyLinesOf_append, nonEmptyLinesOf_cons,
      nonEmptyLinesOf_singleton [], TrimSpace_nil]
    simp
  · rw [if_neg hc, nonEmptyLinesOf_append, nonEmptyLinesOf_append, nonEmptyLinesOf_singleton,
      nonEmptyLinesOf_singleton, TrimSpace_concat_space c last h]

theorem nonEmptyLinesOf_Split_rdropWhile (s : List Char) :
    nonEmptyLinesOf (Split (s.rdropWhile isSpace)) = nonEmptyLinesOf (Split s) := by
  induction s using List.reverseRecOn with
  | nil => rfl
  | append_singleton s c ih =>
    by_cases h : isSpace c = true
    · rw [List.rdropWhile_concat_pos _ _ _ h, ih, nonEmptyLinesOf_Split_concat_space c s h]
    · rw [List.rdropWhile_concat_neg _ _ _ h]

theorem nonEmptyLinesOf_Split_TrimSpace (s : List Char) :
    nonEmptyLinesOf (Split (TrimSpace s)) = nonEmptyLinesOf (Split s) := by
  unfold TrimSpace
  rw [nonEmptyLinesOf_Split_rdropWhile, nonEmptyLinesOf_Split_dropWhile]

theorem nonEmptyLinesOf_eq_map (ls : List (List Char)) :
    nonEmptyLinesOf ls = (ls.filter (fun l => !l.all isSpace)).map TrimSpace := by
  induction ls with
  | nil => rfl
  | cons l ls ih =>
    rw [nonEmptyLinesOf_cons, ih, nonEmptyLinesOf_singleton]
    by_cases h : l.all isSpace = true
    · rw [if_pos ((TrimSpace_eq_nil_iff l).mpr h)]
      simp [List.filter, h]
    · rw [if_neg (fun e => h ((TrimSpace_eq_nil_iff l).mp e))]
      simp only [Bool.not_eq_true] at h
      simp [List.filter, h]

theorem nonEmptyLines_eq (text : List Char) :
    nonEmptyLinesOf (Split (TrimSpace text)) = (nonBlankLines text).map TrimSpace := by
  rw [nonEmptyLinesOf_Split_TrimSpace, nonEmptyLinesOf_eq_map]
  rfl

theorem getD_map_TrimSpace (ls : List (List Char)) (i : Nat) :
    (ls.map TrimSpace).getD i [] = TrimSpace (ls.getD i []) := by
  induction ls generalizing i with
  | nil => rfl
  | cons l ls ih =>
    cases i with
    | zero => rfl
    | succ i => simpa using ih i

/-- C5. For every text whose trimmed form does not match the single-line fully-qualified
expression and that has two or more non-blank lines (split at line feeds, blank lines
dropped), `ParseMessage` returns ok with the trimmed second-to-last non-blank line as the
action and the trimmed last non-blank line as the date/time fragment. -/
theorem ParseMessage_multiLine (text : List Char)
    (h1 : FindStringSubmatch reActionFullDate (TrimSpace text) = none)
    (h2 : 2 ≤ (nonBlankLines text).length) :
    ParseMessage text =
      (TrimSpace ((nonBlankLines text).getD ((nonBlankLines text).length - 2) []),
       TrimSpace ((nonBlankLines text).getD ((nonBlankLines text).length - 1) []), true) := by
  have e := nonEmptyLines_eq text
  have hl : ((nonBlankLines text).map TrimSpace).length = (nonBlankLines text).length :=
    List.length_map _ _
  have n1 : ¬ ((nonBlankLines text).length = 1) := by omega
  simp only [ParseMessage, h1, e, hl, n1, if_false, h2, if_true, getD_map_TrimSpace]

/-- Witness of C5: `Буду спать`, a line feed, `завтра в 9` gives the action `Буду спать` and
the fragment `завтра в 9`. -/
theorem ParseMessage_multiLine_witness :
    ParseMessage "Буду спать\nзавтра в 9".toList
      = (TrimSpace ((nonBlankLines "Буду спать\nзавтра в 9".toList).getD
          ((nonBlankLines "Буду спать\nзавтра в 9".toList).length - 2) []),
         TrimSpace ((nonBlankLines "Буду спать\nзавтра в 9".toList).getD
          ((nonBlankLines "Буду спать\nзавтра в 9".toList).length - 1) []), true)
      ∧ ParseMessage "Буду спать\nзавтра в 9".toList
        = ("Буду спать".toList, "завтра в 9".toList, true) :=
  ⟨ParseMessage_multiLine "Буду спать\nзавтра в 9".toList (by decide) (by decide), by decide⟩

theorem runLen_spec (p : Char → Bool) : ∀ (s : List Char) (hi : Option Nat) (k : Nat),
    k ≤ runLen p hi s ↔
      (k ≤ s.length ∧ (∀ h, hi = some h → k ≤ h) ∧ (s.take k).all p = true) := by
  intro s
  induction s with
  | nil =>
    intro hi k
    have e : runLen p hi [] = 0 := by
      cases hi with
      | none => rfl
      | some h => cases h <;> rfl
    rw [e]
    constructor
    · intro h
      have : k = 0 := by omega
      subst this
      simp
    · intro h
      simpa using h.1
  | cons c s ih =>
    intro hi k
    cases k with
    | zero => simp
    | succ k =>
      cases hi with
      | none =>
        have e : runLen p none (c :: s) = if p c then runLen p none s + 1 else 0 := rfl
        rw [e]
        by_cases hc : p c = true
        · rw [if_pos hc]
          have := ih none k
          simp only [Nat.add_le_add_iff_right, this, List.length_cons, List.take_succ_cons,
            List.all_cons, hc, Bool.true_and]
          simp
        · rw [if_neg hc]
          simp [hc]
      | some h =>
        cases h with
        | zero =>
          have e : runLen p (some 0) (c :: s) = 0 := rfl
          rw [e]
          simp
        | succ h =>
          have e : runLen p (some (h + 1)) (c :: s)
              = if p c then runLen p (some h) s + 1 else 0 := rfl
          rw [e]
          by_cases hc : p c = true
          · rw [if_pos hc]
            have := ih (some h) k
            simp only [Nat.add_le_add_iff_right, this, List.length_cons, List.take_succ_cons,
              List.all_cons, hc, Bool.true_and]
            simp
          · rw [if_neg hc]
            simp [hc]

theorem mem_counts (lo n k : Nat) (g : Bool) : k ∈ counts lo n g ↔ lo ≤ k ∧ k ≤ n := by
  unfold counts
  have h : k ∈ (List.range (n + 1 - lo)).map (fun i => lo + i) ↔ lo ≤ k ∧ k ≤ n := by
    simp only [List.mem_map, List.mem_range]
    constructor
    · rintro ⟨i, hi, rfl⟩
      omega
    · rintro ⟨h1, h2⟩
      exact ⟨k - lo, by omega, by omega⟩
  cases g
  · simpa using h
  · simpa using h

theorem chars_append (a b : List Tok) : Tok.chars (a ++ b) = Tok.chars a ++ Tok.chars b := by
  induction a with
  | nil => rfl
  | cons x a ih => cases x <;> simp [Tok.chars, ih]

theorem chars_map_chr (w : List Char) : Tok.chars (w.map Tok.chr) = w := by
  induction w with
  | nil => rfl
  | cons c w ih => simp [Tok.chars, ih]

theorem matchSeq_rep_some (p : Char → Bool) (lo : Nat) (hi : Option Nat) (g : Bool)
    (r : List Item) (b : Bool) (s : List Char) (t : List Tok)
    (h : matchSeq (Item.rep p lo hi g :: r) b s = some t) :
    ∃ k t1, lo ≤ k ∧ k ≤ runLen p hi s ∧ matchSeq r (b && k == 0) (s.drop k) = some t1 ∧
      t = (s.take k).map Tok.chr ++ t1 := by
  simp only [matchSeq] at h
  obtain ⟨k, hk, hf⟩ := List.exists_of_findSome?_eq_some h
  rw [mem_counts] at hk
  cases hm : matchSeq r (b && k == 0) (s.drop k) with
  | none => rw [hm] at hf; simp at hf
  | some t1 =>
    rw [hm] at hf
    simp only [Option.map_some', Option.some.injEq] at hf
    exact ⟨k, t1, hk.1, hk.2, hm, hf.symm⟩

theorem matchSeq_sound : ∀ (re : List Item) (b : Bool) (s : List Char) (t : List Tok),
    matchSeq re b s = some t → ∃ post, s = Tok.chars t ++ post := by
  intro re
  induction re with
  | nil =>
    intro b s t h
    simp only [matchSeq, Option.some.injEq] at h
    subst h
    exact ⟨s, rfl⟩
  | cons it r ih =>
    intro b s t h
    cases it with
    | rep p lo hi g =>
      obtain ⟨k, t1, _, _, hm, rfl⟩ := matchSeq_rep_some p lo hi g r b s t h
      obtain ⟨post, hp⟩ := ih _ _ _ hm
      refine ⟨post, ?_⟩
      rw [chars_append, chars_map_chr, List.append_assoc, ← hp, List.take_append_drop]
    | gopen =>
      simp only [matchSeq, Option.map_eq_some'] at h
      obtain ⟨t1, hm, rfl⟩ := h
      obtain ⟨post, hp⟩ := ih b s t1 hm
      exact ⟨post, hp⟩
    | gclose =>
      simp only [matchSeq, Option.map_eq_some'] at h
      obtain ⟨t1, hm, rfl⟩ := h
      obtain ⟨post, hp⟩ := ih b s t1 hm
      exact ⟨post, hp⟩
    | bol =>
      simp only [matchSeq] at h
      split_ifs at h
      exact ih _ _ _ h
    | eol =>
      simp only [matchSeq] at h
      split_ifs at h
      exact ih _ _ _ h

theorem matchSeq_prefix_closed : ∀ (re : List Item), noAnchor re = true →
    ∀ (b : Bool) (w r : List Char) (t : List Tok),
    matchSeq re b (w ++ r) = some t → Tok.chars t = w →
    ∀ (b1 : Bool) (r1 : List Char), (matchSeq re b1 (w ++ r1)).isSome = true := by
  intro re
  induction re with
  | nil => intro _ b w r t _ _ b1 r1; rfl
  | cons it rest ih =>
    intro hna b w r t h hc b1 r1
    cases it with
    | rep p lo hi g =>
      have hna1 : noAnchor rest = true := by simpa [noAnchor] using hna
      obtain ⟨k, t1, hlo, hk, hm, rfl⟩ := matchSeq_rep_some p lo hi g rest b (w ++ r) t h
      obtain ⟨post, hp⟩ := matchSeq_sound _ _ _ _ hm
      rw [chars_append, chars_map_chr] at hc
      have hk1 := (runLen_spec p (w ++ r) hi k).mp hk
      have hkw : k ≤ w.length := by
        have := congrArg List.length hc
        rw [List.length_append, List.length_take] at this
        have h2 := hk1.1
        omega
      have e1 : (w ++ r).take k = w.take k := List.take_append_of_le_length hkw
      have e2 : (w ++ r).drop k = w.drop k ++ r := List.drop_append_of_le_length hkw
      have e3 : (w ++ r1).take k = w.take k := List.take_append_of_le_length hkw
      have e4 : (w ++ r1).drop k = w.drop k ++ r1 := List.drop_append_of_le_length hkw
      have hc1 : Tok.chars t1 = w.drop k := by
        rw [e1] at hc
        have : w.take k ++ Tok.chars t1 = w.take k ++ w.drop k := by
          rw [hc, List.take_append_drop]
        exact List.append_cancel_left this
      rw [e2] at hm
      have hrec := ih hna1 _ _ _ _ hm hc1 (b1 && k == 0) r1
      have hk2 : k ≤ runLen p hi (w ++ r1) := by
        rw [runLen_spec]
        refine ⟨by rw [List.length_append]; omega, hk1.2.1, ?_⟩
        rw [e3, ← e1]
        exact hk1.2.2
      simp only [matchSeq, List.findSome?_isSome_iff]
      refine ⟨k, (mem_counts _ _ _ _).mpr ⟨hlo, hk2⟩, ?_⟩
      rw [e4]
      simpa using hrec
    | gopen =>
      have hna1 : noAnchor rest = true := by simpa [noAnchor] using hna
      simp only [matchSeq, Option.map_eq_some'] at h
      obtain ⟨t1, hm, rfl⟩ := h
      have := ih hna1 _ _ _ _ hm hc b1 r1
      simpa [matchSeq] using this
    | gclose =>
      have hna1 : noAnchor rest = true := by simpa [noAnchor] using hna
      simp only [matchSeq, Option.map_eq_some'] at h
      obtain ⟨t1, hm, rfl⟩ := h
      have := ih hna1 _ _ _ _ hm hc b1 r1
      simpa [matchSeq] using this
    | bol => simp [noAnchor] at hna
    | eol => simp [noAnchor] at hna

theorem findFrom_spec (re : List Item) : ∀ (s : List Char) (b : Bool) (pre0 pre : List Char)
    (ms : List (List Char)), findFrom re b pre0 s = some (pre, ms) →
    ∃ u t post, pre = pre0 ++ u ∧ s = u ++ (Tok.chars t ++ post) ∧
      ms = Tok.chars t :: Tok.groups t ∧
      (∃ b3, matchSeq re b3 (Tok.chars t ++ post) = some t) ∧
      (∀ u1 u2, u = u1 ++ u2 → u2 ≠ [] →
        ∃ b2, matchSeq re b2 (u2 ++ (Tok.chars t ++ post)) = none) := by
  intro s
  induction s with
  | nil =>
    intro b pre0 pre ms h
    simp only [findFrom, Option.map_eq_some', Prod.mk.injEq] at h
    obtain ⟨t, hm, rfl, rfl⟩ := h
    obtain ⟨post, hp⟩ := matchSeq_sound _ _ _ _ hm
    refine ⟨[], t, post, by simp, by simpa using hp, rfl, ⟨b, by rw [← hp]; exact hm⟩, ?_⟩
    intro u1 u2 hu hne
    have : u2 = [] := by
      have := congrArg List.length hu
      simp only [List.length_nil, List.length_append] at this
      exact List.eq_nil_of_length_eq_zero (by omega)
    exact absurd this hne
  | cons c s ih =>
    intro b pre0 pre ms h
    simp only [findFrom] at h
    cases hm : matchSeq re b (c :: s) with
    | some t =>
      rw [hm] at h
      simp only [Option.some.injEq, Prod.mk.injEq] at h
      obtain ⟨rfl, rfl⟩ := h
      obtain ⟨post, hp⟩ := matchSeq_sound _ _ _ _ hm
      refine ⟨[], t, post, by simp, by simpa using hp, rfl, ⟨b, by rw [← hp]; exact hm⟩, ?_⟩
      intro u1 u2 hu hne
      have : u2 = [] := by
        have := congrArg List.length hu
        simp only [List.length_nil, List.length_append] at this
        exact List.eq_nil_of_length_eq_zero (by omega)
      exact absurd this hne
    | none =>
      rw [hm] at h
      obtain ⟨u, t, post, e1, e2, e3, e4, e5⟩ := ih _ _ _ _ h
      refine ⟨c :: u, t, post, by simp [e1], by simp [e2], e3, e4, ?_⟩
      intro u1 u2 hu hne
      cases u1 with
      | nil =>
        simp only [List.nil_append] at hu
        refine ⟨b, ?_⟩
        rw [← hu, List.cons_append, ← e2]
        exact hm
      | cons a u1 =>
        simp only [List.cons_append, List.cons.injEq] at hu
        exact e5 u1 u2 hu.2 hne

theorem Replace1_at (w post : List Char) : ∀ u : List Char,
    (∀ u1 u2, u = u1 ++ u2 → u2 ≠ [] → w.isPrefixOf (u2 ++ (w ++ post)) = false) →
    Replace1 (u ++ (w ++ post)) w [] = u ++ post := by
  intro u
  induction u with
  | nil =>
    intro _
    have hp : w.isPrefixOf (w ++ post) = true := by
      rw [List.isPrefixOf_iff_prefix]
      exact List.prefix_append w post
    unfold Replace1
    simp [hp]
  | cons c u ih =>
    intro h
    have hp := h [] (c :: u) rfl (by simp)
    have hrec := ih (fun u1 u2 hu hne => h (c :: u1) u2 (by simp [hu]) hne)
    rw [List.cons_append] at hp ⊢
    rw [Replace1, hp]
    simp only [Bool.false_eq_true, if_false]
    rw [hrec]
    rfl

theorem Replace1_match (re : List Item) (hna : noAnchor re = true) (line pre : List Char)
    (ms : List (List Char)) (h : findFrom re true [] line = some (pre, ms)) :
    ∃ post, line = pre ++ (sub ms 0 ++ post) ∧ Replace1 line (sub ms 0) [] = pre ++ post := by
  obtain ⟨u, t, post, e1, e2, e3, ⟨b3, e4⟩, e5⟩ := findFrom_spec re line true [] pre ms h
  simp only [List.nil_append] at e1
  subst e1
  have e0 : sub ms 0 = Tok.chars t := by rw [e3]; rfl
  refine ⟨post, by rw [e0]; exact e2, ?_⟩
  rw [e0, e2]
  apply Replace1_at
  intro u1 u2 hu hne
  by_contra hc
  simp only [Bool.not_eq_false] at hc
  rw [List.isPrefixOf_iff_prefix] at hc
  obtain ⟨r1, hr⟩ := hc
  obtain ⟨b2, hn⟩ := e5 u1 u2 hu hne
  have := matchSeq_prefix_closed re hna b3 _ _ t e4 rfl b2 r1
  rw [hr, hn] at this
  exact absurd this (by decide)

/-- C6. For a text whose trimmed form does not match the single-line fully-qualified
expression and that has exactly one non-blank line, with `L` that line trimmed:
(a) if `L` contains a match of `в HH:MM` (or `в HH.MM`), the result is ok, the action is `L`
with the matched fragment (the leftmost match) cut out, then trimmed, and the fragment is the
captured hour, a colon and the captured minute;
(b) otherwise, if `L` contains a match of `в H`, the result is ok, the action is `L` with that
fragment cut out, trimmed, and the fragment is the synthesized `Завтра в H`;
(c) otherwise the result is the failure `("", "", false)`. -/
theorem ParseMessage_singleLine (text line : List Char)
    (h1 : FindStringSubmatch reActionFullDate (TrimSpace text) = none)
    (h2 : nonBlankLines text = [line]) :
    (∀ (pre whole hh mm : List Char),
      findFrom reAtTime true [] (TrimSpace line) = some (pre, [whole, hh, mm]) →
      ∃ post, TrimSpace line = pre ++ (whole ++ post) ∧
        ParseMessage text = (TrimSpace (pre ++ post), hh ++ (':' :: mm), true))
    ∧ (findFrom reAtTime true [] (TrimSpace line) = none →
      ∀ (pre whole hh : List Char),
      findFrom reAtHour true [] (TrimSpace line) = some (pre, [whole, hh]) →
      ∃ post, TrimSpace line = pre ++ (whole ++ post) ∧
        ParseMessage text = (TrimSpace (pre ++ post), "Завтра в ".toList ++ hh, true))
    ∧ (findFrom reAtTime true [] (TrimSpace line) = none →
      findFrom reAtHour true [] (TrimSpace line) = none →
      ParseMessage text = ([], [], false)) := by
  have e : nonEmptyLinesOf (Split (TrimSpace text)) = [TrimSpace line] := by
    rw [nonEmptyLines_eq, h2]; rfl
  refine ⟨?_, ?_, ?_⟩
  · intro pre whole hh mm hf
    obtain ⟨post, p1, p2⟩ := Replace1_match reAtTime (by decide) _ _ _ hf
    have hs : FindStringSubmatch reAtTime (TrimSpace line) = some [whole, hh, mm] := by
      simp [FindStringSubmatch, hf]
    refine ⟨post, p1, ?_⟩
    have p3 : Replace1 (TrimSpace line) whole [] = pre ++ post := p2
    simp only [ParseMessage, h1, e, List.length_singleton, if_true, List.getD_cons_zero, hs, sub,
      List.getD_cons_succ, p3]
  · intro hn pre whole hh hf
    obtain ⟨post, p1, p2⟩ := Replace1_match reAtHour (by decide) _ _ _ hf
    have hs0 : FindStringSubmatch reAtTime (TrimSpace line) = none := by
      simp [FindStringSubmatch, hn]
    have hs : FindStringSubmatch reAtHour (TrimSpace line) = some [whole, hh] := by
      simp [FindStringSubmatch, hf]
    refine ⟨post, p1, ?_⟩
    have p3 : Replace1 (TrimSpace line) whole [] = pre ++ post := p2
    simp only [ParseMessage, h1, e, List.length_singleton, if_true, List.getD_cons_zero, hs0, hs,
      sub, List.getD_cons_succ, p3]
  · intro hn1 hn2
    have hs0 : FindStringSubmatch reAtTime (TrimSpace line) = none := by
      simp [FindStringSubmatch, hn1]
    have hs1 : FindStringSubmatch reAtHour (TrimSpace line) = none := by
      simp [FindStringSubmatch, hn2]
    simp only [ParseMessage, h1, e, List.length_singleton, if_true, List.getD_cons_zero, hs0, hs1]

/-- Witness of C6 (a): `встреча в 9:30 с Иваном` gives the action `встреча  с Иваном` and the
fragment `9:30`. -/
theorem ParseMessage_singleLine_witness :
    ∃ post, TrimSpace "встреча в 9:30 с Иваном".toList
        = "встреча ".toList ++ ("в 9:30".toList ++ post) ∧
      ParseMessage "встреча в 9:30 с Иваном".toList
        = (TrimSpace ("встреча ".toList ++ post), "9".toList ++ (':' :: "30".toList), true) :=
  (ParseMessage_singleLine "встреча в 9:30 с Иваном".toList "встреча в 9:30 с Иваном".toList
    (by decide) (by decide)).1 "встреча ".toList "в 9:30".toList "9".toList "30".toList
    (by decide)

theorem mem_mapDelete {κ ν : Type} [DecidableEq κ] (m : List (κ × ν)) (k : κ) (e : κ × ν) :
    e ∈ mapDelete m k ↔ e ∈ m ∧ e.1 ≠ k := by
  simp [mapDelete, List.mem_filter]

theorem mapGet_eq_none_iff {κ ν : Type} [DecidableEq κ] (m : List (κ × ν)) (k : κ) :
    mapGet m k = none ↔ ∀ e ∈ m, e.1 ≠ k := by
  induction m with
  | nil => simp [mapGet]
  | cons a m ih =>
    by_cases h : a.1 = k
    · simp [mapGet, h]
    · simp [mapGet, h, ih]

theorem mapGet_mapDelete_self {κ ν : Type} [DecidableEq κ] (m : List (κ × ν)) (k : κ) :
    mapGet (mapDelete m k) k = none := by
  rw [mapGet_eq_none_iff]
  intro e he
  exact ((mem_mapDelete m k e).mp he).2

theorem mapGet_mapDelete_none {κ ν : Type} [DecidableEq κ] (m : List (κ × ν)) (k k1 : κ)
    (h : mapGet m k = none) : mapGet (mapDelete m k1) k = none := by
  rw [mapGet_eq_none_iff] at h ⊢
  intro e he
  exact h e ((mem_mapDelete m k1 e).mp he).1

theorem mapDelete_sublist {κ ν : Type} [DecidableEq κ] (m : List (κ × ν)) (k : κ) :
    (mapDelete m k).Sublist m := by
  unfold mapDelete
  exact List.filter_sublist m

theorem nodup_keys_unique {κ ν : Type} (m : List (κ × ν)) (h : (m.map Prod.fst).Nodup)
    (k : κ) (v1 v2 : ν) (h1 : (k, v1) ∈ m) (h2 : (k, v2) ∈ m) : v1 = v2 := by
  induction m with
  | nil => exact absurd h1 (List.not_mem_nil _)
  | cons a m ih =>
    rw [List.map_cons, List.nodup_cons] at h
    rcases List.mem_cons.mp h1 with e1 | e1 <;> rcases List.mem_cons.mp h2 with e2 | e2
    · rw [← e1] at e2
      exact (Prod.mk.inj e2).2.symm
    · exfalso; apply h.1
      rw [← e1]
      exact List.mem_map.mpr ⟨(k, v2), e2, rfl⟩
    · exfalso; apply h.1
      rw [← e2]
      exact List.mem_map.mpr ⟨(k, v1), e1, rfl⟩
    · exact ih h.2 e1 e2

theorem sendToReminderTopic_Reminders (st : State) (chatID : Int) (net : Net) :
    (sendToReminderTopic st chatID net).1.Reminders = st.Reminders := by
  unfold sendToReminderTopic createOrGetReminderTopic State.SetTopicID
  cases st.GetTopicID chatID <;> cases net.found <;> cases net.created <;> rfl

theorem tickStep_cases (env : Env) (now lead : Int) (acc : State × List Sent)
    (kr : List Char × ReminderState) :
    (tickStep env now lead acc kr = acc ∧
      (env.parseRFC3339 kr.2.DateTime = none ∨
        ∃ dt, env.parseRFC3339 kr.2.DateTime = some dt ∧ lead < Sub dt now ∧ 0 < Sub dt now))
    ∨ (∃ dt s, env.parseRFC3339 kr.2.DateTime = some dt ∧ 0 < Sub dt now ∧ Sub dt now ≤ lead ∧
        s.key = kr.1 ∧ (tickStep env now lead acc kr).2 = acc.2 ++ [s] ∧
        ((s.ok = true ∧
            (tickStep env now lead acc kr).1.Reminders = mapDelete acc.1.Reminders kr.1)
          ∨ (s.ok = false ∧ (tickStep env now lead acc kr).1.Reminders = acc.1.Reminders)))
    ∨ (∃ dt, env.parseRFC3339 kr.2.DateTime = some dt ∧ Sub dt now ≤ 0 ∧
        (tickStep env now lead acc kr).2 = acc.2 ∧
        (tickStep env now lead acc kr).1.Reminders = mapDelete acc.1.Reminders kr.1) := by
  cases hp : env.parseRFC3339 kr.2.DateTime with
  | none =>
    left
    simp [tickStep, hp]
  | some dt =>
    by_cases hdue : 0 < Sub dt now ∧ Sub dt now ≤ lead
    · right; left
      cases hs : (sendToReminderTopic acc.1 kr.2.ChatID (env.net kr.1)).2 with
      | true =>
        refine ⟨dt, ⟨kr.1, kr.2.ChatID, env.render lead kr.2.Action, true⟩, rfl, hdue.1,
          hdue.2, rfl, ?_, Or.inl ⟨rfl, ?_⟩⟩
        · simp [tickStep, hp, hdue, hs]
        · simp [tickStep, hp, hdue, hs, State.DeleteReminder, sendToReminderTopic_Reminders]
      | false =>
        refine ⟨dt, ⟨kr.1, kr.2.ChatID, env.render lead kr.2.Action, false⟩, rfl, hdue.1,
          hdue.2, rfl, ?_, Or.inr ⟨rfl, ?_⟩⟩
        · simp [tickStep, hp, hdue, hs]
        · simp [tickStep, hp, hdue, hs, sendToReminderTopic_Reminders]
    · by_cases hexp : Sub dt now ≤ 0
      · right; right
        refine ⟨dt, rfl, hexp, ?_, ?_⟩
        · simp [tickStep, hp, hdue, hexp]
        · simp [tickStep, hp, hdue, hexp, State.DeleteReminder]
      · left
        refine ⟨?_, Or.inr ⟨dt, rfl, ?_, ?_⟩⟩
        · simp [tickStep, hp, hdue, hexp]
        · by_contra hc
          exact hdue ⟨by omega, by omega⟩
        · omega

theorem tickOn_cons (env : Env) (now lead : Int) (kr : List Char × ReminderState)
    (l : List (List Char × ReminderState)) (acc : State × List Sent) :
    (kr :: l).foldl (tickStep env now lead) acc
      = l.foldl (tickStep env now lead) (tickStep env now lead acc kr) := rfl

theorem tickStep_sublist (env : Env) (now lead : Int) (acc : State × List Sent)
    (kr : List Char × ReminderState) :
    (tickStep env now lead acc kr).1.Reminders.Sublist acc.1.Reminders := by
  rcases tickStep_cases env now lead acc kr with ⟨e, _⟩ | ⟨dt, s, _, _, _, _, _, h⟩ |
    ⟨dt, _, _, _, e⟩
  · rw [e]
  · rcases h with ⟨_, e⟩ | ⟨_, e⟩
    · rw [e]; exact mapDelete_sublist _ _
    · rw [e]
  · rw [e]; exact mapDelete_sublist _ _

theorem fold_sublist (env : Env) (now lead : Int) :
    ∀ (l : List (List Char × ReminderState)) (acc : State × List Sent),
    (l.foldl (tickStep env now lead) acc).1.Reminders.Sublist acc.1.Reminders := by
  intro l
  induction l with
  | nil => intro acc; exact List.Sublist.refl _
  | cons kr l ih =>
    intro acc
    rw [tickOn_cons]
    exact (ih _).trans (tickStep_sublist env now lead acc kr)

theorem fold_absent_stays (env : Env) (now lead : Int) (k : List Char)
    (l : List (List Char × ReminderState)) (acc : State × List Sent)
    (h : mapGet acc.1.Reminders k = none) :
    mapGet (l.foldl (tickStep env now lead) acc).1.Reminders k = none := by
  rw [mapGet_eq_none_iff] at h ⊢
  intro e he
  exact h e ((fold_sublist env now lead l acc).subset he)

theorem tickStep_log_mono (env : Env) (now lead : Int) (acc : State × List Sent)
    (kr : List Char × ReminderState) (s : Sent) (hs : s ∈ acc.2) :
    s ∈ (tickStep env now lead acc kr).2 := by
  rcases tickStep_cases env now lead acc kr with ⟨e, _⟩ | ⟨dt, s1, _, _, _, _, e, _⟩ |
    ⟨dt, _, _, e, _⟩
  · rw [e]; exact hs
  · rw [e]; exact List.mem_append_left _ hs
  · rw [e]; exact hs

theorem fold_log_mono (env : Env) (now lead : Int) :
    ∀ (l : List (List Char × ReminderState)) (acc : State × List Sent) (s : Sent),
    s ∈ acc.2 → s ∈ (l.foldl (tickStep env now lead) acc).2 := by
  intro l
  induction l with
  | nil => intro acc s hs; exact hs
  | cons kr l ih =>
    intro acc s hs
    rw [tickOn_cons]
    exact ih _ s (tickStep_log_mono env now lead acc kr s hs)

theorem fold_log_origin (env : Env) (now lead : Int) :
    ∀ (l : List (List Char × ReminderState)) (acc : State × List Sent) (s : Sent),
    s ∈ (l.foldl (tickStep env now lead) acc).2 →
    s ∈ acc.2 ∨ ∃ kr ∈ l, kr.1 = s.key ∧
      ∃ dt, env.parseRFC3339 kr.2.DateTime = some dt ∧ 0 < Sub dt now ∧ Sub dt now ≤ lead := by
  intro l
  induction l with
  | nil => intro acc s hs; exact Or.inl hs
  | cons kr l ih =>
    intro acc s hs
    rw [tickOn_cons] at hs
    rcases ih _ s hs with h | ⟨kr1, hm, hk, hd⟩
    · rcases tickStep_cases env now lead acc kr with ⟨e, _⟩ | ⟨dt, s1, hp, h1, h2, hk, e, _⟩ |
        ⟨dt, _, _, e, _⟩
      · rw [e] at h; exact Or.inl h
      · rw [e] at h
        rcases List.mem_append.mp h with h | h
        · exact Or.inl h
        · rw [List.mem_singleton] at h
          subst h
          exact Or.inr ⟨kr, List.mem_cons_self _ _, hk.symm, dt, hp, h1, h2⟩
      · rw [e] at h; exact Or.inl h
    · exact Or.inr ⟨kr1, List.mem_cons_of_mem _ hm, hk, hd⟩

theorem fold_ok_absent (env : Env) (now lead : Int) :
    ∀ (l : List (List Char × ReminderState)) (acc : State × List Sent),
    (∀ s ∈ acc.2, s.ok = true → mapGet acc.1.Reminders s.key = none) →
    ∀ s ∈ (l.foldl (tickStep env now lead) acc).2, s.ok = true →
      mapGet (l.foldl (tickStep env now lead) acc).1.Reminders s.key = none := by
  intro l
  induction l with
  | nil => intro acc h; exact h
  | cons kr l ih =>
    intro acc h
    rw [tickOn_cons]
    apply ih
    intro s hs hok
    rcases tickStep_cases env now lead acc kr with ⟨e, _⟩ | ⟨dt, s1, _, _, _, hk, e, hc⟩ |
      ⟨dt, _, _, e, er⟩
    · rw [e] at hs ⊢; exact h s hs hok
    · rw [e] at hs
      rcases List.mem_append.mp hs with hs | hs
      · have := h s hs hok
        rcases hc with ⟨_, er⟩ | ⟨_, er⟩
        · rw [er]; exact mapGet_mapDelete_none _ _ _ this
        · rw [er]; exact this
      · rw [List.mem_singleton] at hs
        subst hs
        rcases hc with ⟨_, er⟩ | ⟨hf, _⟩
        · rw [er, hk]; exact mapGet_mapDelete_self _ _
        · rw [hf] at hok; exact absurd hok (by decide)
    · rw [e] at hs
      rw [er]
      exact mapGet_mapDelete_none _ _ _ (h s hs hok)

theorem fold_expired_absent (env : Env) (now lead : Int) (k : List Char) (r : ReminderState)
    (dt : Int) (hp : env.parseRFC3339 r.DateTime = some dt) (hexp : Sub dt now ≤ 0) :
    ∀ (l : List (List Char × ReminderState)) (acc : State × List Sent), (k, r) ∈ l →
    mapGet (l.foldl (tickStep env now lead) acc).1.Reminders k = none := by
  intro l
  induction l with
  | nil => intro acc h; exact absurd h (List.not_mem_nil _)
  | cons kr l ih =>
    intro acc h
    rw [tickOn_cons]
    rcases List.mem_cons.mp h with h | h
    · apply fold_absent_stays
      subst h
      rcases tickStep_cases env now lead acc (k, r) with ⟨_, hn | ⟨dt1, hp1, _, h0⟩⟩ |
        ⟨dt1, s1, hp1, h0, _⟩ | ⟨dt1, _, _, _, er⟩
      · rw [hp] at hn; exact absurd hn (by simp)
      · rw [hp] at hp1
        obtain rfl := Option.some.inj hp1
        omega
      · rw [hp] at hp1
        obtain rfl := Option.some.inj hp1
        omega
      · rw [er]; exact mapGet_mapDelete_self _ _
    · exact ih _ h

theorem fold_keep (env : Env) (now lead : Int) (k : List Char) (r : ReminderState) :
    ∀ (l : List (List Char × ReminderState)) (acc : State × List Sent),
    (k, r) ∈ acc.1.Reminders →
    (∀ kr ∈ l, kr.1 = k → ∃ dt, env.parseRFC3339 kr.2.DateTime = some dt ∧ 0 < Sub dt now) →
    (∀ s ∈ (l.foldl (tickStep env now lead) acc).2, s.key = k → s.ok = false) →
    (k, r) ∈ (l.foldl (tickStep env now lead) acc).1.Reminders := by
  intro l
  induction l with
  | nil => intro acc h _ _; exact h
  | cons kr l ih =>
    intro acc h hpos hlog
    rw [tickOn_cons] at hlog ⊢
    refine ih _ ?_ (fun kr1 hm => hpos kr1 (List.mem_cons_of_mem _ hm)) hlog
    rcases tickStep_cases env now lead acc kr with ⟨e, _⟩ | ⟨dt, s1, hp, h1, h2, hk, e, hc⟩ |
      ⟨dt, hp, hexp, _, er⟩
    · rw [e]; exact h
    · rcases hc with ⟨hok, er⟩ | ⟨_, er⟩
      · rw [er, mem_mapDelete]
        refine ⟨h, ?_⟩
        intro hkk
        have hin : s1 ∈ (tickStep env now lead acc kr).2 := by
          rw [e]; exact List.mem_append_right _ (List.mem_singleton_self _)
        have := hlog s1 (fold_log_mono env now lead l _ s1 hin) (by rw [hk]; exact hkk.symm)
        rw [hok] at this
        exact absurd this (by decide)
      · rw [er]; exact h
    · rw [er, mem_mapDelete]
      refine ⟨h, ?_⟩
      intro hkk
      obtain ⟨dt1, hp1, hpos1⟩ := hpos kr (List.mem_cons_self _ _) hkk.symm
      rw [hp] at hp1
      obtain rfl := Option.some.inj hp1
      omega

/-- C7 (as amended). A delivery that succeeded during a tick was made for a reminder of the
snapshot with `0 < fireAt - now <= leadTime`; that reminder is absent from the store when the
tick ends; and a tick that takes its snapshot from a store in which the key is absent (the
store at the end of this tick, and any later one until the key is added again) does not
invoke delivery for it. -/
theorem tick_deliver_once (env : Env) (now lead : Int)
    (snap : List (List Char × ReminderState)) (st : State) (s : Sent)
    (hs : s ∈ (tickOn env now lead snap st).2) (hok : s.ok = true) :
    (∃ r dt, (s.key, r) ∈ snap ∧ env.parseRFC3339 r.DateTime = some dt ∧
      0 < Sub dt now ∧ Sub dt now ≤ lead)
    ∧ mapGet (tickOn env now lead snap st).1.Reminders s.key = none
    ∧ ∀ (env2 : Env) (now2 lead2 : Int) (st2 : State)
        (snap2 : List (List Char × ReminderState)),
        mapGet st2.Reminders s.key = none → snap2.Perm st2.GetReminders →
        ∀ s2 ∈ (tickOn env2 now2 lead2 snap2 st2).2, s2.key ≠ s.key := by
  refine ⟨?_, ?_, ?_⟩
  · rcases fold_log_origin env now lead snap (st, []) s hs with h | ⟨kr, hm, hk, dt, hd⟩
    · exact absurd h (List.not_mem_nil _)
    · refine ⟨kr.2, dt, ?_, hd⟩
      rw [← hk]
      exact hm
  · exact fold_ok_absent env now lead snap (st, [])
      (fun s1 h1 => absurd h1 (List.not_mem_nil _)) s hs hok
  · intro env2 now2 lead2 st2 snap2 habs hperm s2 hs2 hkey
    rcases fold_log_origin env2 now2 lead2 snap2 (st2, []) s2 hs2 with h | ⟨kr, hm, hk, _⟩
    · exact absurd h (List.not_mem_nil _)
    · have hin : kr ∈ st2.Reminders := hperm.subset hm
      rw [mapGet_eq_none_iff] at habs
      exact habs kr hin (by rw [hk, hkey])

/-- Witness of C7: in the example store the reminder for 12:05 is delivered at 12:00 with a
lead time of ten minutes and is then gone; the next tick does not deliver it. -/
theorem tick_deliver_once_witness :
    (∃ r dt, (reminderKey 5 1, r) ∈ demoState.GetReminders ∧
      (demoEnv true).parseRFC3339 r.DateTime = some dt ∧
      0 < Sub dt demoNow ∧ Sub dt demoNow ≤ tenMinutes)
    ∧ mapGet (tickOn (demoEnv true) demoNow tenMinutes demoState.GetReminders
        demoState).1.Reminders (reminderKey 5 1) = none
    ∧ ∀ (env2 : Env) (now2 lead2 : Int) (st2 : State)
        (snap2 : List (List Char × ReminderState)),
        mapGet st2.Reminders (reminderKey 5 1) = none → snap2.Perm st2.GetReminders →
        ∀ s2 ∈ (tickOn env2 now2 lead2 snap2 st2).2, s2.key ≠ reminderKey 5 1 :=
  tick_deliver_once (demoEnv true) demoNow tenMinutes demoState.GetReminders demoState
    { key := reminderKey 5 1, chatID := 5, text := "чай".toList, ok := true }
    (by decide) rfl

/-- Counterexample to C7 as stated: the reminder for 12:05 is delivered by a tick and deleted;
the loop of the tick run again on the stale snapshot (taken before the deletion) against the
store left by the first tick invokes delivery for it a second time. -/
theorem tick_stale_snapshot_delivers_again :
    (tickOn (demoEnv true) demoNow tenMinutes [(reminderKey 5 1, demoDue)]
        { ReminderTopics := [], Reminders := [(reminderKey 5 1, demoDue)] }).2
      = [{ key := reminderKey 5 1, chatID := 5, text := "чай".toList, ok := true }]
    ∧ (tickOn (demoEnv true) demoNow tenMinutes [(reminderKey 5 1, demoDue)]
        { ReminderTopics := [], Reminders := [(reminderKey 5 1, demoDue)] }).1.Reminders = []
    ∧ (tickOn (demoEnv true) demoNow tenMinutes [(reminderKey 5 1, demoDue)]
        (tickOn (demoEnv true) demoNow tenMinutes [(reminderKey 5 1, demoDue)]
          { ReminderTopics := [], Reminders := [(reminderKey 5 1, demoDue)] }).1).2
      = [{ key := reminderKey 5 1, chatID := 5, text := "чай".toList, ok := true }] := by
  decide

/-- C8. For every store with distinct keys, every order of the snapshot, every `now`, lead
time and outcome of the external calls and of the writes of the state file: a reminder of the
store whose fire time has passed (`fireAt - now <= 0`) is absent from the store when the tick
ends, and the tick does not invoke delivery for it. -/
theorem tick_expired (env : Env) (now lead : Int) (st : State)
    (snap : List (List Char × ReminderState)) (hperm : snap.Perm st.GetReminders)
    (hnd : (st.Reminders.map Prod.fst).Nodup) (k : List Char) (r : ReminderState) (dt : Int)
    (hmem : (k, r) ∈ st.Reminders) (hp : env.parseRFC3339 r.DateTime = some dt)
    (hexp : Sub dt now ≤ 0) :
    mapGet (tickOn env now lead snap st).1.Reminders k = none
    ∧ ∀ s ∈ (tickOn env now lead snap st).2, s.key ≠ k := by
  refine ⟨?_, ?_⟩
  · exact fold_expired_absent env now lead k r dt hp hexp snap (st, []) (hperm.symm.subset hmem)
  · intro s hs hkey
    rcases fold_log_origin env now lead snap (st, []) s hs with h | ⟨kr, hm, hk, dt1, hp1, h0, _⟩
    · exact absurd h (List.not_mem_nil _)
    · have hin : (k, kr.2) ∈ st.Reminders := by
        have := hperm.subset hm
        rw [← hkey, ← hk]
        exact this
      have e := nodup_keys_unique st.Reminders hnd k r kr.2 hmem hin
      rw [← e, hp] at hp1
      obtain rfl := Option.some.inj hp1
      omega

/-- Witness of C8: in the example store the reminder for 11:00 is gone after the tick of
12:00 and was not delivered, the writes of the state file failing. -/
theorem tick_expired_witness :
    mapGet (tickOn (demoEnv true) demoNow tenMinutes demoState.GetReminders
        demoState).1.Reminders (reminderKey 5 2) = none
    ∧ ∀ s ∈ (tickOn (demoEnv true) demoNow tenMinutes demoState.GetReminders demoState).2,
        s.key ≠ reminderKey 5 2 :=
  tick_expired (demoEnv true) demoNow tenMinutes demoState demoState.GetReminders
    (List.Perm.refl _) (by decide) (reminderKey 5 2) demoExpired 1748764800000000000
    (by decide) (by decide) (by decide)

/-- C9 (as amended). For every store with distinct keys, every order of the snapshot, `now`
and lead time: a reminder of the store with `fireAt - now > leadTime` and `fireAt - now > 0`
is not delivered and is still in the store, with the same key and field values, after the
tick; a reminder with `0 < fireAt - now <= leadTime` none of whose deliveries in the tick
succeeded is still in the store unchanged; and the store after the tick is a sublist of the
store before it (nothing is added). -/
theorem tick_pending_untouched (env : Env) (now lead : Int) (st : State)
    (snap : List (List Char × ReminderState)) (hperm : snap.Perm st.GetReminders)
    (hnd : (st.Reminders.map Prod.fst).Nodup) (k : List Char) (r : ReminderState) (dt : Int)
    (hmem : (k, r) ∈ st.Reminders) (hp : env.parseRFC3339 r.DateTime = some dt) :
    (lead < Sub dt now → 0 < Sub dt now →
      (k, r) ∈ (tickOn env now lead snap st).1.Reminders
      ∧ ∀ s ∈ (tickOn env now lead snap st).2, s.key ≠ k)
    ∧ (0 < Sub dt now → Sub dt now ≤ lead →
      (∀ s ∈ (tickOn env now lead snap st).2, s.key = k → s.ok = false) →
      (k, r) ∈ (tickOn env now lead snap st).1.Reminders)
    ∧ (tickOn env now lead snap st).1.Reminders.Sublist st.Reminders := by
  have huniq : ∀ kr ∈ snap, kr.1 = k → kr.2 = r := by
    intro kr hm hk
    have hin : (k, kr.2) ∈ st.Reminders := by
      have := hperm.subset hm
      rw [← hk]
      exact this
    exact (nodup_keys_unique st.Reminders hnd k r kr.2 hmem hin).symm
  have hpos : 0 < Sub dt now → ∀ kr ∈ snap, kr.1 = k →
      ∃ dt1, env.parseRFC3339 kr.2.DateTime = some dt1 ∧ 0 < Sub dt1 now := by
    intro h0 kr hm hk
    rw [huniq kr hm hk]
    exact ⟨dt, hp, h0⟩
  refine ⟨?_, ?_, ?_⟩
  · intro hl h0
    have hnot : ∀ s ∈ (tickOn env now lead snap st).2, s.key ≠ k := by
      intro s hs hkey
      rcases fold_log_origin env now lead snap (st, []) s hs with h | ⟨kr, hm, hk, dt1, hp1, _, h2⟩
      · exact absurd h (List.not_mem_nil _)
      · rw [huniq kr hm (by rw [hk, hkey]), hp] at hp1
        obtain rfl := Option.some.inj hp1
        omega
    refine ⟨?_, hnot⟩
    exact fold_keep env now lead k r snap (st, []) hmem (hpos h0)
      (fun s hs hkey => absurd hkey (hnot s hs))
  · intro h0 _ hfail
    exact fold_keep env now lead k r snap (st, []) hmem (hpos h0) hfail
  · exact fold_sublist env now lead snap (st, [])

/-- Witness of C9: in the example store, at 12:00 with a lead time of ten minutes, the
reminder for 18:00 is kept and not delivered. -/
theorem tick_pending_untouched_witness :
    (reminderKey 5 3, demoPending) ∈ (tickOn (demoEnv false) demoNow tenMinutes
        demoState.GetReminders demoState).1.Reminders
    ∧ ∀ s ∈ (tickOn (demoEnv false) demoNow tenMinutes demoState.GetReminders demoState).2,
        s.key ≠ reminderKey 5 3 :=
  (tick_pending_untouched (demoEnv false) demoNow tenMinutes demoState demoState.GetReminders
    (List.Perm.refl _) (by decide) (reminderKey 5 3) demoPending 1748790000000000000
    (by decide) (by decide)).1 (by decide) (by decide)

/-- Counterexample to C9 as stated: with a lead time of minus two hours (the configuration
accepts a negative number of minutes) the reminder for 11:00 has, at 12:00,
`fireAt - now` = minus one hour, which is more than the lead time; the tick deletes it. -/
theorem tick_negative_lead_deletes :
    demoParse demoExpired.DateTime = some 1748764800000000000
    ∧ -7200000000000 < Sub 1748764800000000000 demoNow
    ∧ (tickOn (demoEnv true) demoNow (-7200000000000) demoState.GetReminders
        demoState).1.Reminders
      = [(reminderKey 5 1, demoDue), (reminderKey 5 3, demoPending)] := by
  decide

theorem digitsAux_eq (fuel : Nat) : ∀ (n : Nat) (acc : List Char), n < fuel → 0 < n →
    digitsAux fuel n acc = ((Nat.digits 10 n).reverse).map digitChar ++ acc := by
  induction fuel with
  | zero => intro n acc h; omega
  | succ fuel ih =>
    intro n acc h h0
    rw [digitsAux_succ]
    by_cases hz : n / 10 = 0
    · rw [if_pos hz]
      have hlt : n < 10 := by omega
      rw [Nat.digits_of_lt 10 n (by omega) hlt, Nat.mod_eq_of_lt hlt]
      rfl
    · rw [if_neg hz, ih (n / 10) _ (by omega) (by omega)]
      rw [Nat.digits_def' (by omega : 1 < 10) h0]
      simp

theorem natStr_eq_decimalNat (n : Nat) : natStr n = decimalNat n := by
  unfold natStr decimalNat
  by_cases h : n = 0
  · subst h; rfl
  · rw [if_neg h, digitsAux_eq (n + 1) n [] (by omega) (by omega), List.append_nil]

theorem fmtD_eq_decimal (i : Int) : fmtD i = decimal i := by
  cases i with
  | ofNat n =>
    have h : ¬ ((Int.ofNat n) < 0) := by simp
    simp only [fmtD, decimal, h, if_false, natStr_eq_decimalNat]
    rfl
  | negSucc n =>
    have h : (Int.negSucc n) < 0 := Int.negSucc_lt_zero n
    simp only [fmtD, decimal, h, if_true, natStr_eq_decimalNat]
    rfl

theorem digitChar_injOn (a b : Nat) (ha : a < 10) (hb : b < 10)
    (h : digitChar a = digitChar b) : a = b := by
  have := congrArg digitVal h
  rwa [digitVal_digitChar a ha, digitVal_digitChar b hb] at this

theorem map_digitChar_inj : ∀ (l1 l2 : List Nat), (∀ d ∈ l1, d < 10) → (∀ d ∈ l2, d < 10) →
    l1.map digitChar = l2.map digitChar → l1 = l2 := by
  intro l1
  induction l1 with
  | nil =>
    intro l2 _ _ h
    cases l2 with
    | nil => rfl
    | cons b l2 => simp at h
  | cons a l1 ih =>
    intro l2 h1 h2 h
    cases l2 with
    | nil => simp at h
    | cons b l2 =>
      simp only [List.map_cons, List.cons.injEq] at h
      have e := digitChar_injOn a b (h1 a (List.mem_cons_self _ _)) (h2 b (List.mem_cons_self _ _)) h.1
      rw [e, ih l2 (fun d hd => h1 d (List.mem_cons_of_mem _ hd))
        (fun d hd => h2 d (List.mem_cons_of_mem _ hd)) h.2]

theorem decimalNat_digits (n : Nat) : ∀ c ∈ decimalNat n, cDigit c = true := by
  intro c hc
  unfold decimalNat at hc
  by_cases h : n = 0
  · rw [if_pos h, List.mem_singleton] at hc
    rw [hc]; decide
  · rw [if_neg h, List.mem_map] at hc
    obtain ⟨d, hd, rfl⟩ := hc
    exact cDigit_digitChar d (Nat.digits_lt_base (by omega) (List.mem_reverse.mp hd))

theorem decimalNat_ne_nil (n : Nat) : decimalNat n ≠ [] := by
  unfold decimalNat
  by_cases h : n = 0
  · rw [if_pos h]; simp
  · rw [if_neg h]
    simp [Nat.digits_ne_nil_iff_ne_zero, h]

theorem decimalNat_injective (a b : Nat) (h : decimalNat a = decimalNat b) : a = b := by
  have key : ∀ n, n ≠ 0 → decimalNat n ≠ ['0'] := by
    intro n hn e
    unfold decimalNat at e
    rw [if_neg hn] at e
    have e1 : ((Nat.digits 10 n).reverse).map digitChar = [0].map digitChar := e
    have e2 := map_digitChar_inj _ _
      (fun d hd => Nat.digits_lt_base (by omega) (List.mem_reverse.mp hd))
      (fun d hd => by simp at hd; omega) e1
    have e3 : Nat.digits 10 n = [0] := by
      have := congrArg List.reverse e2
      simpa using this
    have hl := Nat.getLast_digit_ne_zero 10 hn
    simp [e3] at hl
  by_cases ha : a = 0
  · by_cases hb : b = 0
    · rw [ha, hb]
    · exfalso
      apply key b hb
      rw [← h, ha]; rfl
  · by_cases hb : b = 0
    · exfalso
      apply key a ha
      rw [h, hb]; rfl
    · unfold decimalNat at h
      rw [if_neg ha, if_neg hb] at h
      have e2 := map_digitChar_inj _ _
        (fun d hd => Nat.digits_lt_base (by omega) (List.mem_reverse.mp hd))
        (fun d hd => Nat.digits_lt_base (by omega) (List.mem_reverse.mp hd)) h
      exact Nat.digits_inj_iff.mp (List.reverse_injective e2)

theorem decimal_injective (i j : Int) (h : decimal i = decimal j) : i = j := by
  have hne : ∀ a b : Nat, decimalNat a ≠ '-' :: decimalNat b := by
    intro a b e
    cases hx : decimalNat a with
    | nil => exact decimalNat_ne_nil a hx
    | cons c l =>
      rw [hx] at e
      have hc : cDigit c = true := decimalNat_digits a c (by rw [hx]; exact List.mem_cons_self _ _)
      have : c = '-' := (List.cons.inj e).1
      rw [this] at hc
      exact absurd hc (by decide)
  unfold decimal at h
  by_cases hi : i < 0 <;> by_cases hj : j < 0
  · rw [if_pos hi, if_pos hj] at h
    have := decimalNat_injective _ _ (List.cons.inj h).2
    omega
  · rw [if_pos hi, if_neg hj] at h
    exact absurd h.symm (hne _ _)
  · rw [if_neg hi, if_pos hj] at h
    exact absurd h (hne _ _)
  · rw [if_neg hi, if_neg hj] at h
    have := decimalNat_injective _ _ h
    omega

theorem decimal_no_underscore (i : Int) : '_' ∉ decimal i := by
  intro h
  unfold decimal at h
  have hn : ∀ n, '_' ∉ decimalNat n := by
    intro n hm
    have := decimalNat_digits n '_' hm
    exact absurd this (by decide)
  by_cases hi : i < 0
  · rw [if_pos hi] at h
    rcases List.mem_cons.mp h with h | h
    · exact absurd h (by decide)
    · exact hn _ h
  · rw [if_neg hi] at h
    exact hn _ h

theorem append_cons_inj (x : Char) : ∀ (a a1 b b1 : List Char), x ∉ a → x ∉ a1 →
    a ++ x :: b = a1 ++ x :: b1 → a = a1 ∧ b = b1 := by
  intro a
  induction a with
  | nil =>
    intro a1 b b1 _ h1 h
    cases a1 with
    | nil => exact ⟨rfl, (List.cons.inj h).2⟩
    | cons c a1 =>
      exfalso
      apply h1
      rw [List.nil_append, List.cons_append] at h
      rw [(List.cons.inj h).1]
      exact List.mem_cons_self _ _
  | cons c a ih =>
    intro a1 b b1 h0 h1 h
    cases a1 with
    | nil =>
      exfalso
      apply h0
      rw [List.nil_append, List.cons_append] at h
      rw [← (List.cons.inj h).1]
      exact List.mem_cons_self _ _
    | cons c1 a1 =>
      rw [List.cons_append, List.cons_append] at h
      obtain ⟨e1, e2⟩ := List.cons.inj h
      obtain ⟨r1, r2⟩ := ih a1 b b1 (fun hm => h0 (List.mem_cons_of_mem _ hm))
        (fun hm => h1 (List.mem_cons_of_mem _ hm)) e2
      exact ⟨by rw [e1, r1], r2⟩

theorem mapGet_mapSet_self {κ ν : Type} [DecidableEq κ] (m : List (κ × ν)) (k : κ) (v : ν) :
    mapGet (mapSet m k v) k = some v := by
  simp [mapSet, mapGet]

theorem mapGet_mapDelete_other {κ ν : Type} [DecidableEq κ] (m : List (κ × ν)) (k k1 : κ)
    (h : k1 ≠ k) : mapGet (mapDelete m k) k1 = mapGet m k1 := by
  induction m with
  | nil => rfl
  | cons e r ih =>
    by_cases he : e.1 = k
    · have e1 : mapDelete (e :: r) k = mapDelete r k := by
        simp [mapDelete, he]
      have e2 : mapGet (e :: r) k1 = mapGet r k1 := by
        simp only [mapGet]
        rw [if_neg (by rw [he]; exact fun c => h c.symm)]
      rw [e1, e2]
      exact ih
    · have e1 : mapDelete (e :: r) k = e :: mapDelete r k := by
        simp [mapDelete, he]
      rw [e1]
      simp only [mapGet]
      by_cases hk : e.1 = k1
      · rw [if_pos hk, if_pos hk]
      · rw [if_neg hk, if_neg hk]
        exact ih

theorem mapGet_mapSet_other {κ ν : Type} [DecidableEq κ] (m : List (κ × ν)) (k k1 : κ) (v : ν)
    (h : k1 ≠ k) : mapGet (mapSet m k v) k1 = mapGet m k1 := by
  unfold mapSet
  simp only [mapGet]
  rw [if_neg (fun c => h c.symm)]
  exact mapGet_mapDelete_other m k k1 h

/-- C10. For every chat id and message id the reminder key is the decimal rendering of the
chat id, an underscore and the decimal rendering of the message id; `Service.AddReminder` and
the message loop both store the reminder of a message under that key, and both leave the
entry of every other pair of chat id and message id as it was; and the key determines the
pair: equal keys come from equal chat ids and equal message ids, negative ids included. -/
theorem reminderKey_spec (chatID messageID : Int) :
    reminderKey chatID messageID = decimal chatID ++ ('_' :: decimal messageID)
    ∧ (∀ (s : Service) (loc : Location) (now : Time) (action dateTimeStr : List Char)
        (threadID : Int),
        (s.AddReminder loc now action dateTimeStr chatID messageID threadID).2.2 = true →
        mapGet (s.AddReminder loc now action dateTimeStr chatID messageID threadID).1.reminders
            (decimal chatID ++ ('_' :: decimal messageID))
          = some { Action := action,
                   DateTime := (s.AddReminder loc now action dateTimeStr chatID messageID
                     threadID).2.1,
                   ChatID := chatID, MessageID := messageID, ThreadID := threadID })
    ∧ (∀ (formatRFC3339 : Time → List Char) (loc : Location) (now : Time) (net : Net)
        (writeErr : Bool) (b : Bot) (text action dateTimeStr : List Char) (dt : Time),
        ParseMessage text = (action, dateTimeStr, true) →
        parseDateTime loc now dateTimeStr = (dt, true) →
        mapGet (handleMessage formatRFC3339 loc now net writeErr b
            { Text := text, ChatID := chatID, MessageID := messageID,
              Command := none }).state.Reminders
            (decimal chatID ++ ('_' :: decimal messageID))
          = some { Action := action, DateTime := formatRFC3339 dt, ChatID := chatID,
                   MessageID := messageID, ThreadID := 0 })
    ∧ (∀ c2 m2 : Int, reminderKey chatID messageID = reminderKey c2 m2 →
        chatID = c2 ∧ messageID = m2)
    ∧ (∀ (s : Service) (loc : Location) (now : Time) (action dateTimeStr : List Char)
        (threadID c2 m2 : Int), ¬ (c2 = chatID ∧ m2 = messageID) →
        mapGet (s.AddReminder loc now action dateTimeStr chatID messageID threadID).1.reminders
            (reminderKey c2 m2)
          = mapGet s.reminders (reminderKey c2 m2))
    ∧ (∀ (formatRFC3339 : Time → List Char) (loc : Location) (now : Time) (net : Net)
        (writeErr : Bool) (b : Bot) (text : List Char) (command : Option (List Char))
        (c2 m2 : Int), ¬ (c2 = chatID ∧ m2 = messageID) →
        mapGet (handleMessage formatRFC3339 loc now net writeErr b
            { Text := text, ChatID := chatID, MessageID := messageID,
              Command := command }).state.Reminders (reminderKey c2 m2)
          = mapGet b.state.Reminders (reminderKey c2 m2)
        ∧ mapGet (handleMessage formatRFC3339 loc now net writeErr b
            { Text := text, ChatID := chatID, MessageID := messageID,
              Command := command }).reminder.reminders (reminderKey c2 m2)
          = mapGet b.reminder.reminders (reminderKey c2 m2)) := by
  have hk : reminderKey chatID messageID = decimal chatID ++ ('_' :: decimal messageID) := by
    unfold reminderKey
    rw [fmtD_eq_decimal, fmtD_eq_decimal]
  have hinj : ∀ c2 m2 : Int, reminderKey chatID messageID = reminderKey c2 m2 →
      chatID = c2 ∧ messageID = m2 := by
    intro c2 m2 h
    have hk2 : reminderKey c2 m2 = decimal c2 ++ ('_' :: decimal m2) := by
      unfold reminderKey
      rw [fmtD_eq_decimal, fmtD_eq_decimal]
    rw [hk, hk2] at h
    obtain ⟨e1, e2⟩ := append_cons_inj '_' _ _ _ _ (decimal_no_underscore chatID)
      (decimal_no_underscore c2) h
    exact ⟨decimal_injective _ _ e1, decimal_injective _ _ e2⟩
  have hne : ∀ c2 m2 : Int, ¬ (c2 = chatID ∧ m2 = messageID) →
      reminderKey c2 m2 ≠ reminderKey chatID messageID := by
    intro c2 m2 hd hc
    obtain ⟨e1, e2⟩ := hinj c2 m2 hc.symm
    exact hd ⟨e1.symm, e2.symm⟩
  have hframe : ∀ (s : Service) (loc : Location) (now : Time) (action dateTimeStr : List Char)
      (threadID c2 m2 : Int), ¬ (c2 = chatID ∧ m2 = messageID) →
      mapGet (s.AddReminder loc now action dateTimeStr chatID messageID threadID).1.reminders
          (reminderKey c2 m2)
        = mapGet s.reminders (reminderKey c2 m2) := by
    intro s loc now action dateTimeStr threadID c2 m2 hd
    unfold Service.AddReminder
    cases hp : parseDateTime loc now dateTimeStr with
    | mk dt ok =>
      cases ok with
      | false => rfl
      | true => exact mapGet_mapSet_other _ _ _ _ (hne c2 m2 hd)
  refine ⟨hk, ?_, ?_, hinj, hframe, ?_⟩
  · intro s loc now action dateTimeStr threadID hok
    rw [← hk]
    unfold Service.AddReminder at hok ⊢
    cases hp : parseDateTime loc now dateTimeStr with
    | mk dt ok =>
      cases ok with
      | false => rw [hp] at hok; simp at hok
      | true => simp only [mapGet_mapSet_self]
  · intro formatRFC3339 loc now net writeErr b text action dateTimeStr dt hpm hpd
    rw [← hk]
    simp only [handleMessage, hpm, Service.AddReminder, hpd, State.AddReminder]
    simp only [reduceCtorEq, or_self, if_false]
    rw [sendToReminderTopic_Reminders]
    exact mapGet_mapSet_self _ _ _
  · intro formatRFC3339 loc now net writeErr b text command c2 m2 hd
    have hsvc := hframe b.reminder loc now
    unfold handleMessage
    simp only
    split_ifs with hcmd
    · exact ⟨by rw [sendToReminderTopic_Reminders], rfl⟩
    · cases hpm : ParseMessage text with
      | mk action rest =>
        cases rest with
        | mk dateTimeStr ok =>
          cases ok with
          | false => exact ⟨rfl, rfl⟩
          | true =>
            have hs := hsvc action dateTimeStr 0 c2 m2 hd
            cases hadd : b.reminder.AddReminder loc now action dateTimeStr chatID messageID 0 with
            | mk svc rest2 =>
              cases rest2 with
              | mk dt ok2 =>
                rw [hadd] at hs
                cases ok2 with
                | false =>
                  simp only [hadd]
                  exact ⟨trivial, trivial⟩
                | true =>
                  simp only [hadd, State.AddReminder]
                  refine ⟨?_, hs⟩
                  rw [sendToReminderTopic_Reminders]
                  exact mapGet_mapSet_other _ _ _ _ (hne c2 m2 hd)

/-- Witness of C10: the key of message 42 in chat -1001234567890 is `-1001234567890_42`; the
message `Буду спать`, line feed, `завтра в 9`, read at 2025-06-01T19:00Z in Europe/Moscow, is
stored under it by the message loop, and the reminder of message 41 of that chat stays as it
was. -/
theorem reminderKey_spec_witness :
    reminderKey (-1001234567890) 42 = "-1001234567890_42".toList
    ∧ mapGet (handleMessage (fun _ => "2025-06-02T09:00:00+03:00".toList) moscowZone
          ⟨2025, 6, 1, 19, 0, 0, 0⟩ demoNet false
          { reminder := { reminders := [] }, state := demoState }
          { Text := "Буду спать\nзавтра в 9".toList, ChatID := -1001234567890, MessageID := 42,
            Command := none }).state.Reminders
        (decimal (-1001234567890) ++ ('_' :: decimal 42))
      = some { Action := "Буду спать".toList, DateTime := "2025-06-02T09:00:00+03:00".toList,
               ChatID := -1001234567890, MessageID := 42, ThreadID := 0 }
    ∧ mapGet (handleMessage (fun _ => "2025-06-02T09:00:00+03:00".toList) moscowZone
          ⟨2025, 6, 1, 19, 0, 0, 0⟩ demoNet false
          { reminder := { reminders := [] }, state := demoState }
          { Text := "Буду спать\nзавтра в 9".toList, ChatID := -1001234567890, MessageID := 42,
            Command := none }).state.Reminders (reminderKey (-1001234567890) 41)
      = mapGet demoState.Reminders (reminderKey (-1001234567890) 41) :=
  ⟨by decide,
   (reminderKey_spec (-1001234567890) 42).2.2.1 (fun _ => "2025-06-02T09:00:00+03:00".toList)
    moscowZone ⟨2025, 6, 1, 19, 0, 0, 0⟩ demoNet false
    { reminder := { reminders := [] }, state := demoState }
    "Буду спать\nзавтра в 9".toList "Буду спать".toList "завтра в 9".toList
    (Date 2025 6 2 9 0 0 0 moscowZone) (by decide) (by decide),
   ((reminderKey_spec (-1001234567890) 42).2.2.2.2.2 (fun _ => "2025-06-02T09:00:00+03:00".toList)
    moscowZone ⟨2025, 6, 1, 19, 0, 0, 0⟩ demoNet false
    { reminder := { reminders := [] }, state := demoState }
    "Буду спать\nзавтра в 9".toList none (-1001234567890) 41 (by decide)).1⟩

/-- C11: the failing input. The text `31.02.2025 в 10:00` is of the fully-qualified shape
`DD.MM.YYYY в HH:MM`; its date is rejected by `time.ParseInLocation`, the block of the
explicit date is left without returning, and the later expression `в HH:MM` matches the same
fragment and decides. In Europe/Moscow the result is ok and reads 10:00 of the date of `now`
(read at 2025-06-01T06:00Z, 09:00 there) or of the day after (read at 2025-06-01T09:00Z,
12:00 there): today's or tomorrow's date combined with the clock time of the fragment. -/
theorem parseDateTime_fullDate_invalid_falls_through :
    FindStringSubmatch reFullDate "31.02.2025 в 10:00".toList
        = some ["31.02.2025 в 10:00".toList, "31.02.2025".toList, "10".toList, "00".toList]
    ∧ ParseInLocation layoutDate "31.02.2025".toList moscowZone = none
    ∧ tryFullDate moscowZone "31.02.2025 в 10:00".toList = none
    ∧ FindStringSubmatch reAtTimeFold "31.02.2025 в 10:00".toList
        = some ["в 10:00".toList, "10".toList, "00".toList]
    ∧ (⟨2025, 6, 1, 6, 0, 0, 0⟩ : Time).wall moscowZone = ⟨2025, 6, 1, 9, 0, 0, 0⟩
    ∧ (parseDateTime moscowZone ⟨2025, 6, 1, 6, 0, 0, 0⟩ "31.02.2025 в 10:00".toList).2 = true
    ∧ (parseDateTime moscowZone ⟨2025, 6, 1, 6, 0, 0, 0⟩ "31.02.2025 в 10:00".toList).1.wall
        moscowZone = ⟨2025, 6, 1, 10, 0, 0, 0⟩
    ∧ (⟨2025, 6, 1, 9, 0, 0, 0⟩ : Time).wall moscowZone = ⟨2025, 6, 1, 12, 0, 0, 0⟩
    ∧ (parseDateTime moscowZone ⟨2025, 6, 1, 9, 0, 0, 0⟩ "31.02.2025 в 10:00".toList).2 = true
    ∧ (parseDateTime moscowZone ⟨2025, 6, 1, 9, 0, 0, 0⟩ "31.02.2025 в 10:00".toList).1.wall
        moscowZone = ⟨2025, 6, 2, 10, 0, 0, 0⟩ := by
  decide

end AlertBot
